import Mathlib

/-!
Verification of the j2j core pipeline (src/index.js): JavaScript-to-JSON
conversion.  The development embeds the data model and operations of the
source shallowly: JavaScript runtime values become the inductive `JSValue`,
the `JSON.stringify` builtin becomes an executable serializer following the
ECMA-262 algorithm, the options merge (the npm `defaults` dependency)
becomes an explicit record merge that also tracks the aliasing of the
caller's record, and the promise pipeline of `parse` / `output` / `write` /
`j2j` becomes explicit `Except`-valued functions.  The sandboxed evaluator
(the npm `sandbox` dependency) is not part of this repository; it is
modelled from the spec where needed.  JavaScript numbers are modelled as
integers throughout (the only numbers the claims exercise); machine floats
are out of scope.
-/

namespace J2J

/-! ## Characters used by the serializer, parser and evaluator -/

def qCh : Char := Char.ofNat 34

def bsCh : Char := Char.ofNat 92

def lbCh : Char := Char.ofNat 123

def rbCh : Char := Char.ofNat 125

def lkCh : Char := Char.ofNat 91

def rkCh : Char := Char.ofNat 93

def cmCh : Char := Char.ofNat 44

def clCh : Char := Char.ofNat 58

def sqCh : Char := Char.ofNat 39

def mnCh : Char := Char.ofNat 45

def dotCh : Char := Char.ofNat 46

def slCh : Char := Char.ofNat 47

def isDigitCh (c : Char) : Bool := 48 ≤ c.toNat && c.toNat ≤ 57

def digitChar (n : Nat) : Char := Char.ofNat (48 + n)

def digitVal (c : Char) : Nat := c.toNat - 48

def isWsCh (c : Char) : Bool :=
  c.toNat = 32 || c.toNat = 9 || c.toNat = 10 || c.toNat = 13

/-! ## JavaScript runtime values

A JavaScript value as it matters to this program: the JSON-representable
shapes plus the two shapes the classifier must reject (`undefined` and
functions; a function's body is irrelevant to every operation modelled
here, so a single constructor stands for all functions).  Numbers are
modelled as integers. -/

inductive JSValue : Type where
  | null
  | bool (b : Bool)
  | num (n : Int)
  | str (s : String)
  | arr (elems : List JSValue)
  | obj (fields : List (String × JSValue))
  | undef
  | func

/-- The JavaScript `typeof` operator's tag for a value (`typeof null` is
famously `"object"`). -/
def typeofTag : JSValue → String
  | .null => "object"
  | .bool _ => "boolean"
  | .num _ => "number"
  | .str _ => "string"
  | .arr _ => "object"
  | .obj _ => "object"
  | .undef => "undefined"
  | .func => "function"

/-! ## The serializer: JSON.stringify (src/index.js line 52 and line 104)

`src/index.js` serializes with `JSON.stringify(o, null, parseInt(opts.indent, 10))`.
The definitions below follow the ECMA-262 `JSON.stringify` algorithm for a
`null` replacer and a numeric (possibly `NaN`) space argument:
`QuoteJSONString`, `SerializeJSONProperty`, `SerializeJSONArray`,
`SerializeJSONObject`. -/

/-- One hex digit, lowercase, as `QuoteJSONString`'s `UnicodeEscape` emits. -/
def hexDigitCh (n : Nat) : Char :=
  if n < 10 then Char.ofNat (48 + n) else Char.ofNat (87 + n)

/-- ECMA `QuoteJSONString`, per character: the two-character escapes for
quote, backslash, backspace, tab, newline, form feed and carriage return;
`\u00XX` for the remaining control characters; the character itself
otherwise. -/
def escChar (c : Char) : List Char :=
  if c = qCh then [bsCh, qCh]
  else if c = bsCh then [bsCh, bsCh]
  else if c = Char.ofNat 8 then [bsCh, Char.ofNat 98]
  else if c = Char.ofNat 9 then [bsCh, Char.ofNat 116]
  else if c = Char.ofNat 10 then [bsCh, Char.ofNat 110]
  else if c = Char.ofNat 12 then [bsCh, Char.ofNat 102]
  else if c = Char.ofNat 13 then [bsCh, Char.ofNat 114]
  else if c.toNat < 32 then
    [bsCh, Char.ofNat 117, Char.ofNat 48, Char.ofNat 48,
     hexDigitCh (c.toNat / 16), hexDigitCh (c.toNat % 16)]
  else [c]

def escL (cs : List Char) : List Char := (cs.map escChar).flatten

/-- ECMA `QuoteJSONString`: the escaped characters between double quotes. -/
def quoteJSON (s : String) : String := String.mk (qCh :: (escL s.data ++ [qCh]))

/-- Decimal digits of `n`, most significant first, accumulator style; the
fuel argument is `n + 1` at the top call, which always suffices since the
argument at least halves each step. -/
def natDigsAux : Nat → Nat → List Char → List Char
  | 0, _, acc => acc
  | f + 1, n, acc =>
    if n < 10 then digitChar n :: acc
    else natDigsAux f (n / 10) (digitChar (n % 10) :: acc)

def natDigs (n : Nat) : List Char := natDigsAux (n + 1) n []

/-- Decimal notation of an integer, as `JSON.stringify` emits a number
value (integers only in this model). -/
def intRepr (n : Int) : String :=
  if n < 0 then String.mk (mnCh :: natDigs (-n).toNat)
  else String.mk (natDigs n.toNat)

/-- Member separator: `":"` with no gap, `": "` otherwise (ECMA
`SerializeJSONObject` step 10.b). -/
def memberSep (gap : String) : String := if gap = "" then ":" else ": "

/-- Join with a separator; `List.intercalate` restated by recursion so that
proofs can follow the parser's loop structure. -/
def joinSep (sep : String) : List String → String
  | [] => ""
  | [x] => x
  | x :: y :: xs => x ++ sep ++ joinSep sep (y :: xs)

def newlineStr : String := String.singleton (Char.ofNat 10)

/-- ECMA `SerializeJSONArray`: brackets around the serialized elements,
either compact or with the newline-and-indent layout. -/
def serArrBody (gap ind : String) (parts : List String) : String :=
  if parts = [] then "[]"
  else if gap = "" then "[" ++ joinSep "," parts ++ "]"
  else
    "[" ++ newlineStr ++ ind ++ gap ++
      joinSep ("," ++ newlineStr ++ ind ++ gap) parts ++ newlineStr ++ ind ++ "]"

/-- ECMA `SerializeJSONObject`: braces around the serialized members. -/
def serObjBody (gap ind : String) (parts : List String) : String :=
  if parts = [] then String.mk [lbCh, rbCh]
  else if gap = "" then String.singleton lbCh ++ joinSep "," parts ++ String.singleton rbCh
  else
    String.singleton lbCh ++ newlineStr ++ ind ++ gap ++
      joinSep ("," ++ newlineStr ++ ind ++ gap) parts ++ newlineStr ++ ind ++
      String.singleton rbCh

mutual

/-- ECMA `SerializeJSONProperty`: `none` is JavaScript `undefined` (the
result for `undefined` and function values, which `JSON.stringify` omits). -/
def serProp (gap ind : String) : JSValue → Option String
  | .null => some "null"
  | .bool b => some (cond b "true" "false")
  | .num n => some (intRepr n)
  | .str s => some (quoteJSON s)
  | .arr xs => some (serArrBody gap ind (serItems gap (ind ++ gap) xs))
  | .obj kvs => some (serObjBody gap ind (serFields gap (ind ++ gap) kvs))
  | .undef => none
  | .func => none

/-- Array elements: an element whose serialization is `undefined` appears
as `"null"` (ECMA `SerializeJSONArray` step 8.b). -/
def serItems (gap ind : String) : List JSValue → List String
  | [] => []
  | x :: xs => (serProp gap ind x).getD "null" :: serItems gap ind xs

/-- Object members: a member whose value serializes to `undefined` is
skipped (ECMA `SerializeJSONObject` / `SerializeJSONProperty`). -/
def serFields (gap ind : String) : List (String × JSValue) → List String
  | [] => []
  | (k, v) :: kvs =>
    match serProp gap ind v with
    | some sv => (quoteJSON k ++ memberSep gap ++ sv) :: serFields gap ind kvs
    | none => serFields gap ind kvs

end

/-- The space argument after `parseInt`: a number or `NaN` (modelled as
`none`).  ECMA `JSON.stringify` turns `NaN` into `0` via
`ToIntegerOrInfinity` and clamps the count of spaces to `[0, 10]`. -/
def gapOfSpace (space : Option Int) : String :=
  String.mk (List.replicate (min 10 (max 0 (space.getD 0))).toNat (Char.ofNat 32))

/-- The call `JSON.stringify(v, null, space)` of src/index.js line 104,
with `space` the (possibly `NaN`) result of `parseInt(opts.indent, 10)`. -/
def stringifyJS (space : Option Int) (v : JSValue) : Option String :=
  serProp (gapOfSpace space) "" v

/-! ## A standard JSON parser

The round-trip claim compares the serializer against a standard JSON
parser.  The parser below reads the JSON grammar (RFC 8259) over unicode
scalar values: objects, arrays, strings with the standard escapes,
integer numbers (fraction and exponent are absent from the integer number
model and make the parse fail), the three literals, and insignificant
whitespace.  Unicode escapes denote scalar values directly; surrogate
pairing of UTF-16 code units is outside the model. -/

/-- Skip insignificant whitespace. -/
def skipWs : List Char → List Char
  | [] => []
  | c :: cs => if isWsCh c then skipWs cs else c :: cs

/-- Value of one hex digit, accepting both cases. -/
def hexVal (c : Char) : Option Nat :=
  if 48 ≤ c.toNat && c.toNat ≤ 57 then some (c.toNat - 48)
  else if 97 ≤ c.toNat && c.toNat ≤ 102 then some (c.toNat - 87)
  else if 65 ≤ c.toNat && c.toNat ≤ 70 then some (c.toNat - 55)
  else none

/-- Parse the body of a JSON string after the opening quote, returning the
decoded characters and the input after the closing quote. -/
def pStrChars : List Char → Option (List Char × List Char)
  | [] => none
  | c :: cs =>
    if c = qCh then some ([], cs)
    else if c = bsCh then
      match cs with
      | [] => none
      | e :: cs2 =>
        if e = qCh then (pStrChars cs2).map fun r => (qCh :: r.1, r.2)
        else if e = bsCh then (pStrChars cs2).map fun r => (bsCh :: r.1, r.2)
        else if e = slCh then (pStrChars cs2).map fun r => (slCh :: r.1, r.2)
        else if e = Char.ofNat 98 then (pStrChars cs2).map fun r => (Char.ofNat 8 :: r.1, r.2)
        else if e = Char.ofNat 116 then (pStrChars cs2).map fun r => (Char.ofNat 9 :: r.1, r.2)
        else if e = Char.ofNat 110 then (pStrChars cs2).map fun r => (Char.ofNat 10 :: r.1, r.2)
        else if e = Char.ofNat 102 then (pStrChars cs2).map fun r => (Char.ofNat 12 :: r.1, r.2)
        else if e = Char.ofNat 114 then (pStrChars cs2).map fun r => (Char.ofNat 13 :: r.1, r.2)
        else if e = Char.ofNat 117 then
          match cs2 with
          | h1 :: h2 :: h3 :: h4 :: cs3 =>
            match hexVal h1, hexVal h2, hexVal h3, hexVal h4 with
            | some a, some b, some c3, some d =>
              let n := ((a * 16 + b) * 16 + c3) * 16 + d
              if n < 55296 ∨ (57343 < n ∧ n < 1114112) then
                (pStrChars cs3).map fun r => (Char.ofNat n :: r.1, r.2)
              else none
            | _, _, _, _ => none
          | _ => none
        else none
    else if c.toNat < 32 then none
    else (pStrChars cs).map fun r => (c :: r.1, r.2)

/-- Longest digit prefix and the rest. -/
def spanDigits : List Char → List Char × List Char
  | [] => ([], [])
  | c :: cs =>
    if isDigitCh c then
      let r := spanDigits cs
      (c :: r.1, r.2)
    else ([], c :: cs)

def digitsVal (ds : List Char) : Nat := ds.foldl (fun a c => a * 10 + digitVal c) 0

/-- True when the input continues with a fraction or exponent part, which
the integer number model does not represent. -/
def numCont : List Char → Bool
  | [] => false
  | c :: _ => c = dotCh || c = Char.ofNat 101 || c = Char.ofNat 69

/-- Parse a JSON number (integer form). -/
def pNum : List Char → Option (Int × List Char)
  | [] => none
  | c :: cs =>
    if c = mnCh then
      match spanDigits cs with
      | ([], _) => none
      | (ds, r) => if numCont r then none else some (-(digitsVal ds : Int), r)
    else
      match spanDigits (c :: cs) with
      | ([], _) => none
      | (ds, r) => if numCont r then none else some ((digitsVal ds : Int), r)

mutual

/-- Parse one JSON value.  The fuel bounds the nesting depth of the
recursion; `jsonParse` supplies one more than the input length, which the
fuel-sufficiency lemmas show is always enough. -/
def pVal : Nat → List Char → Option (JSValue × List Char)
  | 0, _ => none
  | f + 1, cs =>
    match skipWs cs with
    | [] => none
    | c :: rest =>
      if c = qCh then (pStrChars rest).map fun r => (.str (String.mk r.1), r.2)
      else if c = lbCh then
        match skipWs rest with
        | [] => none
        | c2 :: rest2 =>
          if c2 = rbCh then some (.obj [], rest2)
          else (pFields f (c2 :: rest2)).map fun r => (.obj r.1, r.2)
      else if c = lkCh then
        match skipWs rest with
        | [] => none
        | c2 :: rest2 =>
          if c2 = rkCh then some (.arr [], rest2)
          else (pItems f (c2 :: rest2)).map fun r => (.arr r.1, r.2)
      else if c = Char.ofNat 110 then
        match rest with
        | u :: l1 :: l2 :: rest2 =>
          if u = Char.ofNat 117 then
            if l1 = Char.ofNat 108 then
              if l2 = Char.ofNat 108 then some (.null, rest2) else none
            else none
          else none
        | _ => none
      else if c = Char.ofNat 116 then
        match rest with
        | r1 :: u :: e1 :: rest2 =>
          if r1 = Char.ofNat 114 then
            if u = Char.ofNat 117 then
              if e1 = Char.ofNat 101 then some (.bool true, rest2) else none
            else none
          else none
        | _ => none
      else if c = Char.ofNat 102 then
        match rest with
        | a1 :: l1 :: s1 :: e1 :: rest2 =>
          if a1 = Char.ofNat 97 then
            if l1 = Char.ofNat 108 then
              if s1 = Char.ofNat 115 then
                if e1 = Char.ofNat 101 then some (.bool false, rest2) else none
              else none
            else none
          else none
        | _ => none
      else (pNum (c :: rest)).map fun r => (.num r.1, r.2)

/-- Parse the elements of a non-empty array, consuming the closing
bracket. -/
def pItems : Nat → List Char → Option (List JSValue × List Char)
  | 0, _ => none
  | f + 1, cs =>
    match pVal f cs with
    | none => none
    | some (v, r1) =>
      match skipWs r1 with
      | [] => none
      | c :: r2 =>
        if c = cmCh then (pItems f r2).map fun r => (v :: r.1, r.2)
        else if c = rkCh then some ([v], r2)
        else none

/-- Parse the members of a non-empty object, consuming the closing
brace. -/
def pFields : Nat → List Char → Option (List (String × JSValue) × List Char)
  | 0, _ => none
  | f + 1, cs =>
    match skipWs cs with
    | [] => none
    | c :: rest =>
      if c = qCh then
        match pStrChars rest with
        | none => none
        | some (kcs, r1) =>
          match skipWs r1 with
          | [] => none
          | c2 :: r2 =>
            if c2 = clCh then
              match pVal f r2 with
              | none => none
              | some (v, r3) =>
                match skipWs r3 with
                | [] => none
                | c3 :: r4 =>
                  if c3 = cmCh then
                    (pFields f r4).map fun r => ((String.mk kcs, v) :: r.1, r.2)
                  else if c3 = rbCh then some ([(String.mk kcs, v)], r4)
                  else none
            else none
      else none

end

/-- Parse a complete JSON text: one value, with only whitespace around
it. -/
def jsonParse (s : String) : Option JSValue :=
  match pVal (s.length + 1) s.data with
  | some (v, rest) => if skipWs rest = [] then some v else none
  | none => none

/-- Reference form of the digit printer, for proofs: most significant digit
first, by well-founded recursion on the number. -/
def natDigsCore (n : Nat) : List Char :=
  if _h : n < 10 then [digitChar n]
  else natDigsCore (n / 10) ++ [digitChar (n % 10)]
termination_by n
decreasing_by exact Nat.div_lt_self (by omega) (by omega)

/-- True when the head of the input cannot extend or continue a number
token.  The separators and closers that follow a printed value satisfy
it. -/
def numStop (cs : List Char) : Prop :=
  match cs with
  | [] => True
  | c :: _ => isDigitCh c = false ∧ numCont (c :: cs.tail) = false

/-- The head of the input, if any, is not a digit. -/
def noDigitHead : List Char → Prop
  | [] => True
  | c :: _ => isDigitCh c = false

/-- The heads that may legitimately follow a printed value in a compact
JSON document: nothing, a comma, or a closing bracket or brace. -/
def sepHead (cs : List Char) : Prop :=
  match cs with
  | [] => True
  | c :: _ => c = cmCh ∨ c = rkCh ∨ c = rbCh

/-! ### JSON-representable values and sizes -/

/-- Compact serialization of one value, with the ECMA array-element
convention for `undefined` (`serProp` at gap `""` and no indent). -/
def serC (v : JSValue) : String := (serProp "" "" v).getD "null"

/-- True when `k` is not a key of the record. -/
def keyFree (k : String) : List (String × JSValue) → Bool
  | [] => true
  | (k2, _) :: kvs => !(k2 == k) && keyFree k kvs

mutual

/-- JSON-representable: the shapes a JavaScript object graph that
`JSON.stringify` fully preserves can take — no `undefined`, no functions,
and no repeated keys (a JavaScript object cannot carry two properties of
the same name). -/
def isJV : JSValue → Bool
  | .null => true
  | .bool _ => true
  | .num _ => true
  | .str _ => true
  | .arr xs => isJVL xs
  | .obj kvs => isJVF kvs
  | .undef => false
  | .func => false

def isJVL : List JSValue → Bool
  | [] => true
  | x :: xs => isJV x && isJVL xs

def isJVF : List (String × JSValue) → Bool
  | [] => true
  | (k, v) :: kvs => isJV v && keyFree k kvs && isJVF kvs

end

mutual

/-- Fuel needed by `pVal` to read the value back: one step per nesting
level, with `max` over siblings since the fuel is not consumed across
them. -/
def szV : JSValue → Nat
  | .null => 1
  | .bool _ => 1
  | .num _ => 1
  | .str _ => 1
  | .arr xs => 1 + szL xs
  | .obj kvs => 1 + szF kvs
  | .undef => 1
  | .func => 1

def szL : List JSValue → Nat
  | [] => 0
  | x :: xs => 1 + max (szV x) (szL xs)

def szF : List (String × JSValue) → Nat
  | [] => 0
  | (_, v) :: kvs => 1 + max (szV v) (szF kvs)

end

/-! ## Options (src/index.js lines 128-136 and the npm defaults dependency) -/

/-- A primitive option value as the CLI or a programmatic caller supplies
it: a number, a boolean, or a string. -/
inductive JSPrim : Type where
  | num (n : Int)
  | bool (b : Bool)
  | str (s : String)
deriving DecidableEq

/-- The options record.  A field holding `none` is a key that is absent
(JavaScript `undefined`).  `debug`, `indent`, `nocolor` (`no-color`) and
`linenos` (`line-nos`) are the four keys the defaults merge knows;
`output` is set by the CLI's `-o` and merely passed through. -/
structure RawOpts : Type where
  debug : Option JSPrim
  indent : Option JSPrim
  nocolor : Option JSPrim
  linenos : Option JSPrim
  output : Option JSPrim
deriving DecidableEq

/-- The npm `defaults` dependency used at src/index.js line 130: for each
key of the defaults record, if the key is `undefined` on the passed
record, it assigns the default onto the passed record itself; it returns
that same (now filled-in) record.  The defaults record of `options` is
`debug := false`, `indent := 2`, `no-color := true`, `line-nos := false`;
other keys pass through untouched. -/
def defaultsFn (o : RawOpts) : RawOpts :=
  ⟨(o.debug).orElse fun _ => some (.bool false),
   (o.indent).orElse fun _ => some (.num 2),
   (o.nocolor).orElse fun _ => some (.bool true),
   (o.linenos).orElse fun _ => some (.bool false),
   o.output⟩

/-- What a caller may pass where options are expected: nothing
(`undefined`), a callback function (the dual calling convention), or an
options record. -/
inductive OptsArg : Type where
  | undef
  | func
  | record (r : RawOpts)
deriving DecidableEq

/-- j2j.options (src/index.js lines 128-136): a function argument is
replaced by a fresh empty record, as is a missing one (`options || {}`
inside the defaults package); otherwise the caller's record is merged in
place.  The first component is the merge's return value; the second is
the state of the caller's argument after the call — for a record argument
the defaults package has assigned the missing keys onto that very record,
so the caller's record after the call is the merged record itself. -/
def options (a : OptsArg) : RawOpts × OptsArg :=
  match a with
  | .func => (defaultsFn ⟨none, none, none, none, none⟩, .func)
  | .undef => (defaultsFn ⟨none, none, none, none, none⟩, .undef)
  | .record r => (defaultsFn r, .record (defaultsFn r))

/-- JavaScript truthiness of an option value. -/
def truthy : Option JSPrim → Bool
  | none => false
  | some (.bool b) => b
  | some (.num n) => decide (n ≠ 0)
  | some (.str s) => !(s == "")

/-- JavaScript `parseInt(x, 10)` on an option value: `none` is `NaN`.  A
number is truncated (already integral in this model); `true`, `false` and
non-numeric strings give `NaN`; a string is read as an optional sign and
leading digits. -/
def jsParseInt : Option JSPrim → Option Int
  | some (.num n) => some n
  | some (.bool _) => none
  | some (.str s) =>
    (match skipWs s.data with
     | [] => none
     | c :: cs =>
       if c = mnCh then
         match spanDigits cs with
         | ([], _) => none
         | (ds, _) => some (-(digitsVal ds : Int))
       else
         match spanDigits (c :: cs) with
         | ([], _) => none
         | (ds, _) => some ((digitsVal ds : Int)))
  | none => none

/-! ## The evaluator, modelled from the spec

The evaluation itself happens in the npm `sandbox` dependency, which is
not part of this repository; src/index.js only builds the harness string
and consumes the sandbox's result record. -/

/-- Outcome of one isolated evaluation (spec §3 `EvaluationOutcome`):
either a value, or an execution failure carrying the error text. -/
inductive EvalOutcome : Type where
  | value (v : JSValue)
  | failure (msg : String)

def isIdentStartCh (c : Char) : Bool :=
  (65 ≤ c.toNat && c.toNat ≤ 90) || (97 ≤ c.toNat && c.toNat ≤ 122) ||
    c.toNat = 95 || c.toNat = 36

def isIdentCh (c : Char) : Bool := isIdentStartCh c || isDigitCh c

def spanIdent : List Char → List Char × List Char
  | [] => ([], [])
  | c :: cs =>
    if isIdentCh c then
      let r := spanIdent cs
      (c :: r.1, r.2)
    else ([], c :: cs)

/-- JavaScript single-character escapes inside string literals; an
unrecognized escape denotes the character itself. -/
def escMapJS (e : Char) : Char :=
  if e = Char.ofNat 110 then Char.ofNat 10
  else if e = Char.ofNat 116 then Char.ofNat 9
  else if e = Char.ofNat 114 then Char.ofNat 13
  else if e = Char.ofNat 98 then Char.ofNat 8
  else if e = Char.ofNat 102 then Char.ofNat 12
  else if e = Char.ofNat 118 then Char.ofNat 11
  else if e = Char.ofNat 48 then Char.ofNat 0
  else e

/-- Body of a JavaScript string literal up to the closing quote `q`. -/
def eStrChars (q : Char) : List Char → Option (List Char × List Char)
  | [] => none
  | c :: cs =>
    if c = q then some ([], cs)
    else if c = bsCh then
      match cs with
      | [] => none
      | e :: cs2 => (eStrChars q cs2).map fun r => (escMapJS e :: r.1, r.2)
    else (eStrChars q cs).map fun r => (c :: r.1, r.2)

/-- An integer numeric literal (the number subset of the model). -/
def eNum : List Char → Option (Int × List Char)
  | [] => none
  | c :: cs =>
    if c = mnCh then
      match spanDigits cs with
      | ([], _) => none
      | (ds, r) => some (-(digitsVal ds : Int), r)
    else
      match spanDigits (c :: cs) with
      | ([], _) => none
      | (ds, r) => some ((digitsVal ds : Int), r)

mutual

/-- Modelled from the spec: the expression grammar the Evaluator (§4.1)
runs — the JavaScript object-literal subset this tool exists for: object
literals with identifier or quoted keys (trailing commas allowed), array
literals, single- or double-quoted strings, integer numbers, `true`,
`false`, `null`, and bare identifiers.  The environment is empty (§4.1),
so a bare identifier is a reference to an undefined variable and raises a
reference error.  The fuel bounds the nesting depth. -/
def eParse : Nat → List Char → Except String (JSValue × List Char)
  | 0, _ => .error "SyntaxError: Unexpected token"
  | f + 1, cs =>
    match skipWs cs with
    | [] => .error "SyntaxError: Unexpected end of input"
    | c :: rest =>
      if c = sqCh then
        match eStrChars sqCh rest with
        | some (scs, r) => .ok (.str (String.mk scs), r)
        | none => .error "SyntaxError: Invalid or unexpected token"
      else if c = qCh then
        match eStrChars qCh rest with
        | some (scs, r) => .ok (.str (String.mk scs), r)
        | none => .error "SyntaxError: Invalid or unexpected token"
      else if c = lbCh then
        match skipWs rest with
        | [] => .error "SyntaxError: Unexpected end of input"
        | c2 :: rest2 =>
          if c2 = rbCh then .ok (.obj [], rest2)
          else (eFields f (c2 :: rest2)).map fun r => (.obj r.1, r.2)
      else if c = lkCh then
        match skipWs rest with
        | [] => .error "SyntaxError: Unexpected end of input"
        | c2 :: rest2 =>
          if c2 = rkCh then .ok (.arr [], rest2)
          else (eItems f (c2 :: rest2)).map fun r => (.arr r.1, r.2)
      else if isDigitCh c || c = mnCh then
        match eNum (c :: rest) with
        | some (n, r) => .ok (.num n, r)
        | none => .error "SyntaxError: Unexpected token"
      else if isIdentStartCh c then
        let r := spanIdent (c :: rest)
        let name := String.mk r.1
        if name = "true" then .ok (.bool true, r.2)
        else if name = "false" then .ok (.bool false, r.2)
        else if name = "null" then .ok (.null, r.2)
        else .error ("ReferenceError: " ++ name ++ " is not defined")
      else .error "SyntaxError: Unexpected token"

/-- Elements of a non-empty array literal. -/
def eItems : Nat → List Char → Except String (List JSValue × List Char)
  | 0, _ => .error "SyntaxError: Unexpected token"
  | f + 1, cs =>
    match eParse f cs with
    | .error e => .error e
    | .ok (v, r1) =>
      match skipWs r1 with
      | [] => .error "SyntaxError: Unexpected end of input"
      | c :: r2 =>
        if c = cmCh then
          match skipWs r2 with
          | [] => .error "SyntaxError: Unexpected end of input"
          | c2 :: r3 =>
            if c2 = rkCh then .ok ([v], r3)
            else (eItems f (c2 :: r3)).map fun r => (v :: r.1, r.2)
        else if c = rkCh then .ok ([v], r2)
        else .error "SyntaxError: Unexpected token"

/-- Members of a non-empty object literal. -/
def eFields : Nat → List Char → Except String (List (String × JSValue) × List Char)
  | 0, _ => .error "SyntaxError: Unexpected token"
  | f + 1, cs =>
    match skipWs cs with
    | [] => .error "SyntaxError: Unexpected end of input"
    | c :: rest =>
      match
        (if isIdentStartCh c then
          some (String.mk (spanIdent (c :: rest)).1, (spanIdent (c :: rest)).2)
        else if c = sqCh then (eStrChars sqCh rest).map fun r => (String.mk r.1, r.2)
        else if c = qCh then (eStrChars qCh rest).map fun r => (String.mk r.1, r.2)
        else none) with
      | none => .error "SyntaxError: Unexpected token"
      | some (key, r1) =>
        match skipWs r1 with
        | [] => .error "SyntaxError: Unexpected end of input"
        | c2 :: r2 =>
          if c2 = clCh then
            match eParse f r2 with
            | .error e => .error e
            | .ok (v, r3) =>
              match skipWs r3 with
              | [] => .error "SyntaxError: Unexpected end of input"
              | c3 :: r4 =>
                if c3 = cmCh then
                  match skipWs r4 with
                  | [] => .error "SyntaxError: Unexpected end of input"
                  | c4 :: r5 =>
                    if c4 = rbCh then .ok ([(key, v)], r5)
                    else (eFields f (c4 :: r5)).map fun r => ((key, v) :: r.1, r.2)
                else if c3 = rbCh then .ok ([(key, v)], r4)
                else .error "SyntaxError: Unexpected token"
          else .error "SyntaxError: Unexpected token"

end

/-- Modelled from the spec: the Evaluator contract `evaluate(source) ->
EvaluationOutcome` (§4.1).  The npm `sandbox` dependency that performs
the isolated run is not part of this repository; per the spec the source
is run as one expression against an empty environment, and either the
produced value or the execution error crosses the boundary. -/
def evaluate (s : String) : EvalOutcome :=
  match eParse (s.length + 1) s.data with
  | .error m => .failure m
  | .ok (v, rest) =>
    if skipWs rest = [] then .value v
    else .failure "SyntaxError: Unexpected token"

/-! ## The sandbox bridge and classifier (src/index.js lines 66-89) -/

/-- The sandbox reports results through `util.inspect`; an inspected
string is wrapped in single quotes, which is why line 79 compares against
the quoted forms. -/
def inspectStr (t : String) : String := "\x27" ++ t ++ "\x27"

/-- The result record the sandbox callback receives: `result` is the
inspected value the harness returned (the `typeof` string on success, the
error text on failure), `console` the captured console output.  Modelled
from the spec (§2): the captured value crosses the isolate boundary and
is usable by the host serializer. -/
structure SandboxInfo : Type where
  result : String
  console : List JSValue

/-- The info record for a successful evaluation: the harness returns
`typeof` of the value and has logged the value once. -/
def valueInfo (v : JSValue) : SandboxInfo :=
  ⟨inspectStr (typeofTag v), [v]⟩

/-- Modelled from the spec: one sandbox run of the harness built from
`s`.  On success the harness's `typeof` probe is inspected into `result`
and the logged value is captured; when the evaluation throws, `result`
carries the error text and nothing was logged (the log call itself
threw). -/
def runSandbox (s : String) : SandboxInfo :=
  match evaluate s with
  | .value v => valueInfo v
  | .failure m => ⟨m, []⟩

/-- The accept list of src/index.js line 79. -/
def acceptList : List String := [inspectStr "object", inspectStr "string", inspectStr "number"]

/-- The classifier decision of the sandbox callback (src/index.js lines
79-84): an accepted result is the first console capture; any other
result is the rejection message of line 84.  Whether that decision
actually settles the promise depends on `opts.debug` — see
`callbackRun`. -/
def classify (info : SandboxInfo) : Except String JSValue :=
  if acceptList.contains info.result then .ok (info.console.headD .undef)
  else .error ("input evaluated to " ++ info.result ++ ", which is no good.")

/-- The full sandbox callback (src/index.js lines 78-85), including its
control flow: an accepted result returns `dfrd.resolve` immediately
(line 80, before the debug line), so it settles whatever `opts.debug`
is.  On the rejection path, line 83 first evaluates
`info('Sandbox output: ...')` when `opts.debug` is truthy — but the
callback parameter `info` shadows the module-scope chalk helper of the
same name (line 18), so that call is a `TypeError: info is not a
function` thrown before line 84's `dfrd.reject`: the deferred never
settles and nothing is logged (the throw happens while evaluating
`console.info`'s argument).  `none` models that never-settling crash. -/
def callbackRun (debug : Bool) (info : SandboxInfo) : Option (Except String JSValue) :=
  match classify info with
  | .ok v => some (.ok v)
  | .error e => if debug then none else some (.error e)

/-- j2j.parse (src/index.js lines 66-89): the fate of the promise —
`some` a settled state (resolved with the captured value, or rejected
with the classifier's message), or `none` when the callback crashed
before settling (rejection path with `opts.debug` truthy). -/
def parse (s : String) (a : OptsArg) : Option (Except String JSValue) :=
  callbackRun (truthy (options a).1.debug) (runSandbox s)

/-! ## Output, the convenience entry point, and the write orchestration -/

/-- The ambient process state `output` consults: whether standard out is
an interactive terminal, and the highlighter (the npm `cardinal`
dependency) — `none` models the highlighter throwing. -/
structure Env : Type where
  isTTY : Bool
  highlight : String → Option String

/-- What `output` produces: its return value (`none` is JavaScript
`undefined`, the result of stringifying an unserializable value) and the
warnings printed on the way. -/
structure OutRes : Type where
  text : Option String
  warnings : List String

/-- j2j.output (src/index.js lines 99-116): merge options, stringify with
`parseInt(opts.indent, 10)` spaces, and decorate only when standard out
is a terminal, `no-color` is falsy and no output file is set; a
highlighter failure is caught, a warning is printed, and the undecorated
text is returned. -/
def output (o : JSValue) (a : OptsArg) (env : Env) : OutRes :=
  let opts := (options a).1
  let out := stringifyJS (jsParseInt opts.indent) o
  if env.isTTY && !(truthy opts.nocolor) && !(truthy opts.output) then
    match out.bind env.highlight with
    | some d => ⟨some d, []⟩
    | none => ⟨out, ["Could not highlight!"]⟩
  else ⟨out, []⟩

/-- JavaScript falsiness of a value (the `!input` check of line 266). -/
def falsy : JSValue → Bool
  | .null => true
  | .undef => true
  | .bool b => !b
  | .num n => decide (n = 0)
  | .str s => s == ""
  | .arr _ => false
  | .obj _ => false
  | .func => false

mutual

/-- JavaScript `String()` coercion, which is what the string
concatenation building the harness (line 70) applies to a non-string
`input` handed to `parse`.  An array joins its elements with commas
(`null` and `undefined` elements become empty); a plain object becomes
`"[object Object]"`. -/
def jsToString : JSValue → String
  | .null => "null"
  | .undef => "undefined"
  | .bool b => cond b "true" "false"
  | .num n => intRepr n
  | .str s => s
  | .func => "function () \x7b\x7d"
  | .arr xs => joinSep "," (jsToStringL xs)
  | .obj _ => "[object Object]"

def jsToStringL : List JSValue → List String
  | [] => []
  | x :: xs =>
    (match x with
     | .null => ""
     | .undef => ""
     | _ => jsToString x) :: jsToStringL xs

end

/-- The settled state of one `j2j` call: the promise's outcome, how many
times the sandboxed evaluator ran (`parse` invocations), and any warnings
`output` printed. -/
structure J2JRes : Type where
  result : Except String (Option String)
  evalCalls : Nat
  warnings : List String

/-- The public convenience entry point `j2j` (src/index.js lines
263-279), as the code is written: a falsy input throws the
empty-input error before anything else; then `typeof input === 'string'`
returns `output(input, opts)` directly — the evaluator never runs for a
string — and every non-string input is handed to `parse`, whose harness
coerces it into source text.  The call inherits `parse`'s fate: `none`
when the sandbox callback crashed before settling. -/
def j2j (input : JSValue) (a : OptsArg) (env : Env) : Option J2JRes :=
  if falsy input then some ⟨.error "input parameter cannot be empty", 0, []⟩
  else
    let opts := (options a).1
    match input with
    | .str s =>
      let r := output (.str s) (.record opts) env
      some ⟨.ok r.text, 0, r.warnings⟩
    | v =>
      match parse (jsToString v) (.record opts) with
      | none => none
      | some (.ok o) =>
        let r := output o (.record opts) env
        some ⟨.ok r.text, 1, r.warnings⟩
      | some (.error e) => some ⟨.error e, 1, []⟩

/-- The settled state of one `write` call: the final outcome (the text
that went to the output file or standard out, or the message printed by
the final rejection handler), the debug log, and output warnings. -/
structure WriteRes : Type where
  outcome : Except String (Option String)
  debugLog : List String
  warnings : List String

/-- j2j.write (src/index.js lines 148-173): parse, then serialize.  A
parse rejection runs the handler of lines 156-161: line 158 would log
the cause when `opts.debug` is truthy, and line 160 replaces it by a
fresh `Error` carrying exactly that literal message, which the final
handler prints.  When the sandbox callback crashed before settling
(`parse` gives `none` — rejection path with debug truthy), no handler
ever runs: the write promise never settles either, so the line-158
logging is unreachable in every configuration. -/
def write (input : String) (a : OptsArg) (env : Env) : Option WriteRes :=
  let opts := (options a).1
  match parse input (.record opts) with
  | none => none
  | some (.ok v) =>
    let r := output v (.record opts) env
    some ⟨.ok r.text, [], r.warnings⟩
  | some (.error e) =>
    some ⟨.error "cannot coerce input into anything JSON.stringify() can handle",
      if truthy opts.debug then [e] else [], []⟩

/-! ## The sandbox harness (src/index.js lines 70-71) -/

def harnessPre : String := "(function() \x7b console.log(("

def harnessMid : String := ")); return typeof function() \x7b return ("

def harnessPost : String := ");\x7d();\x7d)();"

/-- The string `fn` that `parse` builds (lines 70-71), transcribed: the
source `s` is concatenated in twice, once as the `console.log` argument
and once inside the `typeof` probe. -/
def buildFn (s : String) : String :=
  harnessPre ++ s ++ harnessMid ++ s ++ harnessPost

/-- One harness run as the isolate observes it: the value the
`console.log` capture received, the `typeof` tag probed, and the ordered
trace of side effects. -/
structure HarnessRun : Type where
  logged : JSValue
  tag : String
  effects : List String

/-- Modelled from the spec and the JavaScript semantics of the harness
shape: the immediately-invoked function first evaluates the `console.log`
argument — the first embedded copy of `s` — and then the inner function
call under `typeof` — the second copy — so the isolate performs two
independent evaluations of `s` per invocation.  `ev k` is the outcome of
the k-th evaluation (its value and its side effects); the logged value
comes from evaluation 0, the type tag from evaluation 1, and the side
effects of both runs accumulate in order. -/
def harnessSem (ev : Nat → JSValue × List String) : HarnessRun :=
  ⟨(ev 0).1, typeofTag (ev 1).1, (ev 0).2 ++ (ev 1).2⟩

/-- A bare identifier: identifier syntax throughout and not one of the
literal keywords that an expression position turns into a value. -/
def isBareIdentifier (s : String) : Bool :=
  match s.data with
  | [] => false
  | c :: cs =>
    isIdentStartCh c && cs.all isIdentCh &&
      !(s == "true") && !(s == "false") && !(s == "null")

/-! ## Theorems -/

/-! ## Facts about characters and digit strings -/

theorem toNat_ofNat_valid (n : Nat) (h : n < 55296 ∨ (57343 < n ∧ n < 1114112)) :
    (Char.ofNat n).toNat = n := by
  have hv : n.isValidChar := by
    rcases h with h | h
    · exact Or.inl h
    · exact Or.inr ⟨h.1, h.2⟩
  rw [Char.ofNat, dif_pos hv]
  rfl

theorem toNat_ofNat_lt (n : Nat) (h : n < 55296) : (Char.ofNat n).toNat = n :=
  toNat_ofNat_valid n (Or.inl h)

/-- A character whose code differs from `k` differs from `Char.ofNat k`. -/
theorem ne_char_of_toNat_ne (c : Char) (k : Nat) (hk : k < 55296) (h : c.toNat ≠ k) :
    c ≠ Char.ofNat k := by
  intro he
  exact h (by rw [he, toNat_ofNat_lt k hk])

theorem isWsCh_eq_false (c : Char) (h : c.toNat ≠ 32 ∧ c.toNat ≠ 9 ∧ c.toNat ≠ 10 ∧ c.toNat ≠ 13) :
    isWsCh c = false := by
  simp [isWsCh]
  omega

theorem skipWs_cons (c : Char) (cs : List Char) (h : isWsCh c = false) :
    skipWs (c :: cs) = c :: cs := by
  simp [skipWs, h]

theorem natDigsAux_eq (f : Nat) : ∀ n acc, n < f →
    natDigsAux f n acc = natDigsCore n ++ acc := by
  induction f with
  | zero => intro n acc h; omega
  | succ f ih =>
    intro n acc h
    by_cases h10 : n < 10
    · rw [natDigsAux, if_pos h10, natDigsCore, dif_pos h10]
      rfl
    · rw [natDigsAux, if_neg h10, natDigsCore, dif_neg h10,
        ih (n / 10) _ (by omega)]
      simp

theorem natDigs_eq (n : Nat) : natDigs n = natDigsCore n := by
  rw [natDigs, natDigsAux_eq (n + 1) n [] (by omega)]
  simp

theorem digitChar_toNat (d : Nat) (h : d < 10) : (digitChar d).toNat = 48 + d :=
  toNat_ofNat_lt (48 + d) (by omega)

theorem isDigitCh_digitChar (d : Nat) (h : d < 10) : isDigitCh (digitChar d) = true := by
  simp [isDigitCh, digitChar_toNat d h]
  omega

theorem natDigsCore_digits (n : Nat) : ∀ c ∈ natDigsCore n, isDigitCh c = true := by
  induction n using Nat.strong_induction_on with
  | _ n ih =>
    by_cases h10 : n < 10
    · rw [natDigsCore, dif_pos h10]
      intro c hc
      simp at hc
      exact hc ▸ isDigitCh_digitChar n h10
    · rw [natDigsCore, dif_neg h10]
      intro c hc
      rcases List.mem_append.mp hc with hc | hc
      · exact ih (n / 10) (Nat.div_lt_self (by omega) (by omega)) c hc
      · simp at hc
        exact hc ▸ isDigitCh_digitChar (n % 10) (Nat.mod_lt n (by omega))

theorem natDigsCore_ne_nil (n : Nat) : natDigsCore n ≠ [] := by
  by_cases h10 : n < 10
  · rw [natDigsCore, dif_pos h10]; simp
  · rw [natDigsCore, dif_neg h10]; simp

theorem digitVal_digitChar (d : Nat) (h : d < 10) : digitVal (digitChar d) = d := by
  simp [digitVal, digitChar_toNat d h]

theorem natDigsCore_foldl (n : Nat) : ∀ a : Nat,
    (natDigsCore n).foldl (fun a c => a * 10 + digitVal c) a =
      a * 10 ^ (natDigsCore n).length + n := by
  induction n using Nat.strong_induction_on with
  | _ n ih =>
    intro a
    by_cases h10 : n < 10
    · rw [natDigsCore, dif_pos h10]
      simp [digitVal_digitChar n h10]
    · rw [natDigsCore, dif_neg h10]
      rw [List.foldl_append, ih (n / 10) (Nat.div_lt_self (by omega) (by omega)) a]
      simp [digitVal_digitChar (n % 10) (Nat.mod_lt n (by omega)), pow_succ]
      ring_nf
      omega

theorem digitsVal_natDigs (n : Nat) : digitsVal (natDigs n) = n := by
  rw [digitsVal, natDigs_eq, natDigsCore_foldl n 0]
  simp

theorem spanDigits_append (ds : List Char) (rest : List Char)
    (hds : ∀ c ∈ ds, isDigitCh c = true)
    (hrest : noDigitHead rest) :
    spanDigits (ds ++ rest) = (ds, rest) := by
  induction ds with
  | nil =>
    simp
    match rest, hrest with
    | [], _ => rfl
    | c :: r, hr =>
      simp [noDigitHead] at hr
      rw [spanDigits, if_neg (by simp [hr])]
  | cons d ds ih =>
    have hd : isDigitCh d = true := hds d (by simp)
    rw [List.cons_append, spanDigits, if_pos hd,
      ih (fun c hc => hds c (by simp [hc]))]

theorem numCont_cons_eq_false (c : Char) (r : List Char)
    (h46 : c.toNat ≠ 46) (h101 : c.toNat ≠ 101) (h69 : c.toNat ≠ 69) :
    numCont (c :: r) = false := by
  have d1 : c ≠ dotCh := ne_char_of_toNat_ne c 46 (by omega) h46
  have d2 : c ≠ Char.ofNat 101 := ne_char_of_toNat_ne c 101 (by omega) h101
  have d3 : c ≠ Char.ofNat 69 := ne_char_of_toNat_ne c 69 (by omega) h69
  simp [numCont, d1, d2, d3]

theorem sepHead_head_toNat (c : Char) (r : List Char) (h : sepHead (c :: r)) :
    c.toNat = 44 ∨ c.toNat = 93 ∨ c.toNat = 125 := by
  rcases h with h | h | h <;> subst h <;>
    simp [cmCh, rkCh, rbCh, toNat_ofNat_lt 44 (by omega),
      toNat_ofNat_lt 93 (by omega), toNat_ofNat_lt 125 (by omega)]

theorem sepHead_numCont (cs : List Char) (h : sepHead cs) : numCont cs = false := by
  match cs with
  | [] => rfl
  | c :: r =>
    have := sepHead_head_toNat c r h
    exact numCont_cons_eq_false c r (by omega) (by omega) (by omega)

theorem pNum_intRepr (n : Int) (rest : List Char) (h : sepHead rest) :
    pNum ((intRepr n).data ++ rest) = some (n, rest) := by
  have hnd : noDigitHead rest := by
    match rest with
    | [] => trivial
    | c :: r =>
      have := sepHead_head_toNat c r h
      simp [noDigitHead, isDigitCh]
      omega
  have hnc := sepHead_numCont rest h
  by_cases hneg : n < 0
  · rw [intRepr, if_pos hneg]
    show pNum (mnCh :: (natDigs (-n).toNat ++ rest)) = some (n, rest)
    have hspan : spanDigits (natDigs (-n).toNat ++ rest) = (natDigs (-n).toNat, rest) :=
      spanDigits_append _ _ (by rw [natDigs_eq]; exact natDigsCore_digits _) hnd
    have hne : natDigs (-n).toNat ≠ [] := by rw [natDigs_eq]; exact natDigsCore_ne_nil _
    obtain ⟨d, ds, hmatch⟩ : ∃ d ds, natDigs (-n).toNat = d :: ds := by
      match hm : natDigs (-n).toNat with
      | [] => exact absurd hm hne
      | d :: ds => exact ⟨d, ds, rfl⟩
    rw [pNum, if_pos rfl, hspan, hmatch]
    simp only [hnc, if_false, Bool.false_eq_true]
    rw [← hmatch, digitsVal_natDigs]
    have : ((-n).toNat : Int) = -n := Int.toNat_of_nonneg (by omega)
    rw [this]
    simp
  · rw [intRepr, if_neg hneg]
    show pNum (natDigs n.toNat ++ rest) = some (n, rest)
    have hdig : ∀ c ∈ natDigs n.toNat, isDigitCh c = true := by
      rw [natDigs_eq]; exact natDigsCore_digits _
    have hspan : spanDigits (natDigs n.toNat ++ rest) = (natDigs n.toNat, rest) :=
      spanDigits_append _ _ hdig hnd
    have hne : natDigs n.toNat ≠ [] := by rw [natDigs_eq]; exact natDigsCore_ne_nil _
    obtain ⟨d, ds, hmatch⟩ : ∃ d ds, natDigs n.toNat = d :: ds := by
      match hm : natDigs n.toNat with
      | [] => exact absurd hm hne
      | d :: ds => exact ⟨d, ds, rfl⟩
    have hd : isDigitCh d = true := hdig d (by rw [hmatch]; simp)
    have hdtoNat : 48 ≤ d.toNat ∧ d.toNat ≤ 57 := by simp [isDigitCh] at hd; omega
    have hdm : ¬ d = mnCh := ne_char_of_toNat_ne d 45 (by omega) (by omega)
    rw [hmatch, List.cons_append, pNum, if_neg hdm, ← List.cons_append, ← hmatch, hspan,
      hmatch]
    simp only [hnc, if_false, Bool.false_eq_true]
    rw [← hmatch, digitsVal_natDigs]
    have : (n.toNat : Int) = n := Int.toNat_of_nonneg (by omega)
    rw [this]

/-! ### String escaping round trip -/

theorem hexVal_hexDigitCh (m : Nat) (h : m < 16) : hexVal (hexDigitCh m) = some m := by
  interval_cases m <;> rfl

theorem escL_cons (c : Char) (cs : List Char) : escL (c :: cs) = escChar c ++ escL cs := by
  simp [escL]

theorem pStr_term (t : List Char) : pStrChars (qCh :: t) = some ([], t) := by
  rw [pStrChars.eq_def]; simp

theorem pStr_escQ (t : List Char) :
    pStrChars (bsCh :: qCh :: t) = (pStrChars t).map fun r => (qCh :: r.1, r.2) := by
  rw [pStrChars.eq_def]; simp [qCh, bsCh]

theorem pStr_escB (t : List Char) :
    pStrChars (bsCh :: bsCh :: t) = (pStrChars t).map fun r => (bsCh :: r.1, r.2) := by
  rw [pStrChars.eq_def]; simp [qCh, bsCh]

theorem pStr_escBS (t : List Char) :
    pStrChars (bsCh :: Char.ofNat 98 :: t) =
      (pStrChars t).map fun r => (Char.ofNat 8 :: r.1, r.2) := by
  rw [pStrChars.eq_def]; simp [qCh, bsCh, slCh]

theorem pStr_escT (t : List Char) :
    pStrChars (bsCh :: Char.ofNat 116 :: t) =
      (pStrChars t).map fun r => (Char.ofNat 9 :: r.1, r.2) := by
  rw [pStrChars.eq_def]; simp [qCh, bsCh, slCh]

theorem pStr_escN (t : List Char) :
    pStrChars (bsCh :: Char.ofNat 110 :: t) =
      (pStrChars t).map fun r => (Char.ofNat 10 :: r.1, r.2) := by
  rw [pStrChars.eq_def]; simp [qCh, bsCh, slCh]

theorem pStr_escF (t : List Char) :
    pStrChars (bsCh :: Char.ofNat 102 :: t) =
      (pStrChars t).map fun r => (Char.ofNat 12 :: r.1, r.2) := by
  rw [pStrChars.eq_def]; simp [qCh, bsCh, slCh]

theorem pStr_escR (t : List Char) :
    pStrChars (bsCh :: Char.ofNat 114 :: t) =
      (pStrChars t).map fun r => (Char.ofNat 13 :: r.1, r.2) := by
  rw [pStrChars.eq_def]; simp [qCh, bsCh, slCh]

theorem pStr_escU (g1 g2 g3 g4 : Char) (t : List Char) (a b c3 d : Nat)
    (e1 : hexVal g1 = some a) (e2 : hexVal g2 = some b)
    (e3 : hexVal g3 = some c3) (e4 : hexVal g4 = some d)
    (hn : ((a * 16 + b) * 16 + c3) * 16 + d < 55296) :
    pStrChars (bsCh :: Char.ofNat 117 :: g1 :: g2 :: g3 :: g4 :: t) =
      (pStrChars t).map fun r =>
        (Char.ofNat (((a * 16 + b) * 16 + c3) * 16 + d) :: r.1, r.2) := by
  rw [pStrChars.eq_def]
  simp only [e1, e2, e3, e4]
  simp [qCh, bsCh, slCh, hn]

theorem pStr_plain (c : Char) (t : List Char) (h1 : c ≠ qCh) (h2 : c ≠ bsCh)
    (h3 : ¬ c.toNat < 32) :
    pStrChars (c :: t) = (pStrChars t).map fun r => (c :: r.1, r.2) := by
  rw [pStrChars.eq_def]; simp [h1, h2, h3]

theorem pStrChars_escL (cs : List Char) : ∀ rest : List Char,
    pStrChars (escL cs ++ qCh :: rest) = some (cs, rest) := by
  induction cs with
  | nil =>
    intro rest
    show pStrChars (qCh :: rest) = some ([], rest)
    exact pStr_term rest
  | cons c cs ih =>
    intro rest
    rw [escL_cons, List.append_assoc]
    by_cases h1 : c = qCh
    · subst h1
      rw [show escChar qCh = [bsCh, qCh] from by rw [escChar, if_pos rfl]]
      show pStrChars (bsCh :: qCh :: (escL cs ++ qCh :: rest)) = some (qCh :: cs, rest)
      rw [pStr_escQ, ih rest]
      rfl
    by_cases h2 : c = bsCh
    · subst h2
      rw [show escChar bsCh = [bsCh, bsCh] from by
        rw [escChar, if_neg (by decide), if_pos rfl]]
      show pStrChars (bsCh :: bsCh :: (escL cs ++ qCh :: rest)) = some (bsCh :: cs, rest)
      rw [pStr_escB, ih rest]
      rfl
    by_cases h3 : c = Char.ofNat 8
    · subst h3
      rw [show escChar (Char.ofNat 8) = [bsCh, Char.ofNat 98] from by
        rw [escChar, if_neg (by decide), if_neg (by decide), if_pos rfl]]
      show pStrChars (bsCh :: Char.ofNat 98 :: (escL cs ++ qCh :: rest)) =
        some (Char.ofNat 8 :: cs, rest)
      rw [pStr_escBS, ih rest]
      rfl
    by_cases h4 : c = Char.ofNat 9
    · subst h4
      rw [show escChar (Char.ofNat 9) = [bsCh, Char.ofNat 116] from by
        rw [escChar, if_neg (by decide), if_neg (by decide), if_neg (by decide), if_pos rfl]]
      show pStrChars (bsCh :: Char.ofNat 116 :: (escL cs ++ qCh :: rest)) =
        some (Char.ofNat 9 :: cs, rest)
      rw [pStr_escT, ih rest]
      rfl
    by_cases h5 : c = Char.ofNat 10
    · subst h5
      rw [show escChar (Char.ofNat 10) = [bsCh, Char.ofNat 110] from by
        rw [escChar, if_neg (by decide), if_neg (by decide), if_neg (by decide),
          if_neg (by decide), if_pos rfl]]
      show pStrChars (bsCh :: Char.ofNat 110 :: (escL cs ++ qCh :: rest)) =
        some (Char.ofNat 10 :: cs, rest)
      rw [pStr_escN, ih rest]
      rfl
    by_cases h6 : c = Char.ofNat 12
    · subst h6
      rw [show escChar (Char.ofNat 12) = [bsCh, Char.ofNat 102] from by
        rw [escChar, if_neg (by decide), if_neg (by decide), if_neg (by decide),
          if_neg (by decide), if_neg (by decide), if_pos rfl]]
      show pStrChars (bsCh :: Char.ofNat 102 :: (escL cs ++ qCh :: rest)) =
        some (Char.ofNat 12 :: cs, rest)
      rw [pStr_escF, ih rest]
      rfl
    by_cases h7 : c = Char.ofNat 13
    · subst h7
      rw [show escChar (Char.ofNat 13) = [bsCh, Char.ofNat 114] from by
        rw [escChar, if_neg (by decide), if_neg (by decide), if_neg (by decide),
          if_neg (by decide), if_neg (by decide), if_neg (by decide), if_pos rfl]]
      show pStrChars (bsCh :: Char.ofNat 114 :: (escL cs ++ qCh :: rest)) =
        some (Char.ofNat 13 :: cs, rest)
      rw [pStr_escR, ih rest]
      rfl
    by_cases h8 : c.toNat < 32
    · rw [show escChar c = [bsCh, Char.ofNat 117, Char.ofNat 48, Char.ofNat 48,
          hexDigitCh (c.toNat / 16), hexDigitCh (c.toNat % 16)] from by
        rw [escChar, if_neg h1, if_neg h2, if_neg h3, if_neg h4, if_neg h5, if_neg h6,
          if_neg h7, if_pos h8]]
      show pStrChars (bsCh :: Char.ofNat 117 :: Char.ofNat 48 :: Char.ofNat 48 ::
        hexDigitCh (c.toNat / 16) :: hexDigitCh (c.toNat % 16) ::
        (escL cs ++ qCh :: rest)) = some (c :: cs, rest)
      rw [pStr_escU (Char.ofNat 48) (Char.ofNat 48) (hexDigitCh (c.toNat / 16))
        (hexDigitCh (c.toNat % 16)) _ 0 0 (c.toNat / 16) (c.toNat % 16) rfl rfl
        (hexVal_hexDigitCh _ (by omega)) (hexVal_hexDigitCh _ (by omega)) (by omega),
        ih rest]
      have hc : ((0 * 16 + 0) * 16 + c.toNat / 16) * 16 + c.toNat % 16 = c.toNat := by
        omega
      rw [hc, Char.ofNat_toNat]
      rfl
    · rw [show escChar c = [c] from by
        rw [escChar, if_neg h1, if_neg h2, if_neg h3, if_neg h4, if_neg h5, if_neg h6,
          if_neg h7, if_neg h8]]
      show pStrChars (c :: (escL cs ++ qCh :: rest)) = some (c :: cs, rest)
      rw [pStr_plain c _ h1 h2 h8, ih rest]
      rfl

theorem serProp_some (v : JSValue) (h : isJV v = true) :
    serProp "" "" v = some (serC v) := by
  cases v <;> first
    | rfl
    | (exfalso; simp [isJV] at h)

theorem serItems_cons (x : JSValue) (xs : List JSValue) :
    serItems "" "" (x :: xs) = serC x :: serItems "" "" xs := rfl

theorem serFields_cons (k : String) (v : JSValue) (kvs : List (String × JSValue))
    (h : isJV v = true) :
    serFields "" "" ((k, v) :: kvs) =
      (quoteJSON k ++ ":" ++ serC v) :: serFields "" "" kvs := by
  rw [serFields, serProp_some v h]
  rfl

theorem joinSep_pair (s : String) (p : String) (q : String) (ps : List String) :
    joinSep s (p :: q :: ps) = p ++ s ++ joinSep s (q :: ps) := rfl

/-- First character of a compact serialization: always present, never
whitespace, never a closing bracket or brace. -/
theorem serC_head (v : JSValue) (h : isJV v = true) :
    ∃ c t, (serC v).data = c :: t ∧ isWsCh c = false ∧ c ≠ rkCh ∧ c ≠ rbCh := by
  cases v with
  | null => exact ⟨_, _, rfl, by decide, by decide, by decide⟩
  | bool b =>
    cases b
    · exact ⟨_, _, rfl, by decide, by decide, by decide⟩
    · exact ⟨_, _, rfl, by decide, by decide, by decide⟩
  | num n =>
    show ∃ c t, (intRepr n).data = c :: t ∧ _
    by_cases hneg : n < 0
    · rw [intRepr, if_pos hneg]
      exact ⟨mnCh, _, rfl, by decide, by decide, by decide⟩
    · rw [intRepr, if_neg hneg]
      have hne : natDigs n.toNat ≠ [] := by rw [natDigs_eq]; exact natDigsCore_ne_nil _
      obtain ⟨d, ds, hmatch⟩ : ∃ d ds, natDigs n.toNat = d :: ds := by
        match hm : natDigs n.toNat with
        | [] => exact absurd hm hne
        | d :: ds => exact ⟨d, ds, rfl⟩
      have hd : isDigitCh d = true := by
        have := natDigsCore_digits n.toNat d
        rw [← natDigs_eq, hmatch] at this
        exact this (by simp)
      have hdt : 48 ≤ d.toNat ∧ d.toNat ≤ 57 := by simp [isDigitCh] at hd; omega
      refine ⟨d, ds, by rw [show (String.mk (natDigs n.toNat)).data = natDigs n.toNat from rfl, hmatch], ?_, ?_, ?_⟩
      · exact isWsCh_eq_false d (by omega)
      · exact ne_char_of_toNat_ne d 93 (by omega) (by omega)
      · exact ne_char_of_toNat_ne d 125 (by omega) (by omega)
  | str s =>
    exact ⟨qCh, _, rfl, by decide, by decide, by decide⟩
  | arr xs =>
    show ∃ c t, (serArrBody "" "" (serItems "" "" xs)).data = c :: t ∧ _
    by_cases hnil : serItems "" "" xs = []
    · rw [serArrBody, if_pos hnil]
      exact ⟨_, _, rfl, by decide, by decide, by decide⟩
    · rw [serArrBody, if_neg hnil, if_pos rfl]
      refine ⟨Char.ofNat 91,
        (joinSep "," (serItems "" "" xs)).data ++ [Char.ofNat 93], ?_,
        by decide, by decide, by decide⟩
      rw [String.data_append, String.data_append]
      rfl
  | obj kvs =>
    show ∃ c t, (serObjBody "" "" (serFields "" "" kvs)).data = c :: t ∧ _
    by_cases hnil : serFields "" "" kvs = []
    · rw [serObjBody, if_pos hnil]
      exact ⟨lbCh, _, rfl, by decide, by decide, by decide⟩
    · rw [serObjBody, if_neg hnil, if_pos rfl]
      refine ⟨lbCh,
        (joinSep "," (serFields "" "" kvs)).data ++ [rbCh], ?_,
        by decide, by decide, by decide⟩
      rw [String.data_append, String.data_append]
      rfl
  | undef => simp [isJV] at h
  | func => simp [isJV] at h

/-! ### Parser step lemmas -/

theorem pVal_str (f : Nat) (t : List Char) :
    pVal (f + 1) (qCh :: t) =
      (pStrChars t).map fun r => (.str (String.mk r.1), r.2) := by
  rw [pVal.eq_def]; rfl

theorem pVal_null (f : Nat) (t : List Char) :
    pVal (f + 1) (Char.ofNat 110 :: Char.ofNat 117 :: Char.ofNat 108 ::
      Char.ofNat 108 :: t) = some (.null, t) := by
  rw [pVal.eq_def]; rfl

theorem pVal_true (f : Nat) (t : List Char) :
    pVal (f + 1) (Char.ofNat 116 :: Char.ofNat 114 :: Char.ofNat 117 ::
      Char.ofNat 101 :: t) = some (.bool true, t) := by
  rw [pVal.eq_def]; rfl

theorem pVal_false (f : Nat) (t : List Char) :
    pVal (f + 1) (Char.ofNat 102 :: Char.ofNat 97 :: Char.ofNat 108 ::
      Char.ofNat 115 :: Char.ofNat 101 :: t) = some (.bool false, t) := by
  rw [pVal.eq_def]; rfl

theorem pVal_objE (f : Nat) (t : List Char) :
    pVal (f + 1) (lbCh :: rbCh :: t) = some (JSValue.obj [], t) := by
  rw [pVal.eq_def]; rfl

theorem pVal_arrE (f : Nat) (t : List Char) :
    pVal (f + 1) (lkCh :: rkCh :: t) = some (JSValue.arr [], t) := by
  rw [pVal.eq_def]; rfl

theorem pVal_obj (f : Nat) (c2 : Char) (t : List Char) (hws : isWsCh c2 = false)
    (hne : c2 ≠ rbCh) :
    pVal (f + 1) (lbCh :: c2 :: t) =
      (pFields f (c2 :: t)).map fun r => (JSValue.obj r.1, r.2) := by
  rw [pVal.eq_def]
  show (match skipWs (c2 :: t) with
    | [] => none
    | c2 :: rest2 =>
      if c2 = rbCh then some (JSValue.obj [], rest2)
      else (pFields f (c2 :: rest2)).map fun r => (JSValue.obj r.1, r.2)) =
    (pFields f (c2 :: t)).map fun r => (JSValue.obj r.1, r.2)
  rw [skipWs_cons _ _ hws]
  simp [hne]

theorem pVal_arr (f : Nat) (c2 : Char) (t : List Char) (hws : isWsCh c2 = false)
    (hne : c2 ≠ rkCh) :
    pVal (f + 1) (lkCh :: c2 :: t) =
      (pItems f (c2 :: t)).map fun r => (JSValue.arr r.1, r.2) := by
  rw [pVal.eq_def]
  show (match skipWs (c2 :: t) with
    | [] => none
    | c2 :: rest2 =>
      if c2 = rkCh then some (JSValue.arr [], rest2)
      else (pItems f (c2 :: rest2)).map fun r => (JSValue.arr r.1, r.2)) =
    (pItems f (c2 :: t)).map fun r => (JSValue.arr r.1, r.2)
  rw [skipWs_cons _ _ hws]
  simp [hne]

theorem pVal_num (f : Nat) (c : Char) (t : List Char)
    (hc : 48 ≤ c.toNat ∧ c.toNat ≤ 57 ∨ c.toNat = 45) :
    pVal (f + 1) (c :: t) = (pNum (c :: t)).map fun r => (JSValue.num r.1, r.2) := by
  have hws : isWsCh c = false := isWsCh_eq_false c (by omega)
  have h1 : c ≠ qCh := ne_char_of_toNat_ne c 34 (by omega) (by omega)
  have h2 : c ≠ lbCh := ne_char_of_toNat_ne c 123 (by omega) (by omega)
  have h3 : c ≠ lkCh := ne_char_of_toNat_ne c 91 (by omega) (by omega)
  have h4 : c ≠ Char.ofNat 110 := ne_char_of_toNat_ne c 110 (by omega) (by omega)
  have h5 : c ≠ Char.ofNat 116 := ne_char_of_toNat_ne c 116 (by omega) (by omega)
  have h6 : c ≠ Char.ofNat 102 := ne_char_of_toNat_ne c 102 (by omega) (by omega)
  rw [pVal.eq_def]
  show (match skipWs (c :: t) with
    | [] => none
    | c :: rest =>
      if c = qCh then (pStrChars rest).map fun r => (JSValue.str (String.mk r.1), r.2)
      else if c = lbCh then
        match skipWs rest with
        | [] => none
        | c2 :: rest2 =>
          if c2 = rbCh then some (JSValue.obj [], rest2)
          else (pFields f (c2 :: rest2)).map fun r => (JSValue.obj r.1, r.2)
      else if c = lkCh then
        match skipWs rest with
        | [] => none
        | c2 :: rest2 =>
          if c2 = rkCh then some (JSValue.arr [], rest2)
          else (pItems f (c2 :: rest2)).map fun r => (JSValue.arr r.1, r.2)
      else if c = Char.ofNat 110 then
        match rest with
        | u :: l1 :: l2 :: rest2 =>
          if u = Char.ofNat 117 then
            if l1 = Char.ofNat 108 then
              if l2 = Char.ofNat 108 then some (JSValue.null, rest2) else none
            else none
          else none
        | _ => none
      else if c = Char.ofNat 116 then
        match rest with
        | r1 :: u :: e1 :: rest2 =>
          if r1 = Char.ofNat 114 then
            if u = Char.ofNat 117 then
              if e1 = Char.ofNat 101 then some (JSValue.bool true, rest2) else none
            else none
          else none
        | _ => none
      else if c = Char.ofNat 102 then
        match rest with
        | a1 :: l1 :: s1 :: e1 :: rest2 =>
          if a1 = Char.ofNat 97 then
            if l1 = Char.ofNat 108 then
              if s1 = Char.ofNat 115 then
                if e1 = Char.ofNat 101 then some (JSValue.bool false, rest2) else none
              else none
            else none
          else none
        | _ => none
      else (pNum (c :: rest)).map fun r => (JSValue.num r.1, r.2)) =
    (pNum (c :: t)).map fun r => (JSValue.num r.1, r.2)
  rw [skipWs_cons _ _ hws]
  simp [h1, h2, h3, h4, h5, h6]

theorem pItems_step (f : Nat) (cs : List Char) :
    pItems (f + 1) cs =
      match pVal f cs with
      | none => none
      | some (v, r1) =>
        match skipWs r1 with
        | [] => none
        | c :: r2 =>
          if c = cmCh then (pItems f r2).map fun r => (v :: r.1, r.2)
          else if c = rkCh then some ([v], r2)
          else none := by
  rw [pItems.eq_def]

theorem pFields_step (f : Nat) (t : List Char) :
    pFields (f + 1) (qCh :: t) =
      match pStrChars t with
      | none => none
      | some (kcs, r1) =>
        match skipWs r1 with
        | [] => none
        | c2 :: r2 =>
          if c2 = clCh then
            match pVal f r2 with
            | none => none
            | some (v, r3) =>
              match skipWs r3 with
              | [] => none
              | c3 :: r4 =>
                if c3 = cmCh then
                  (pFields f r4).map fun r => ((String.mk kcs, v) :: r.1, r.2)
                else if c3 = rbCh then some ([(String.mk kcs, v)], r4)
                else none
          else none := by
  rw [pFields.eq_def]; rfl

/-! ### Fuel sufficiency: the size of a value is bounded by the length of
its compact serialization -/

theorem intRepr_length_pos (n : Int) : 1 ≤ (intRepr n).length := by
  by_cases hneg : n < 0
  · rw [intRepr, if_pos hneg]
    simp [String.length]
  · rw [intRepr, if_neg hneg]
    have hne : natDigs n.toNat ≠ [] := by rw [natDigs_eq]; exact natDigsCore_ne_nil _
    have := List.length_pos.mpr hne
    simp [String.length]
    omega

theorem joinSep_comma_cons_cons_length (p q : String) (ps : List String) :
    (joinSep "," (p :: q :: ps)).length =
      p.length + 1 + (joinSep "," (q :: ps)).length := by
  rw [joinSep_pair, String.length_append, String.length_append]
  rfl

mutual

theorem szV_le (v : JSValue) (h : isJV v = true) : szV v ≤ (serC v).length := by
  cases v with
  | null => decide
  | bool b => cases b <;> decide
  | num n => exact le_trans (by rw [szV]) (intRepr_length_pos n)
  | str s =>
    show szV (.str s) ≤ (quoteJSON s).length
    rw [szV]
    simp [quoteJSON, String.length]
  | arr xs =>
    rw [szV]
    cases xs with
    | nil => decide
    | cons x xs =>
      have hx := szL_le (x :: xs) (by simpa [isJV] using h) (by simp)
      have hpne : serItems "" "" (x :: xs) ≠ [] := by rw [serItems_cons]; simp
      show 1 + szL (x :: xs) ≤ (serArrBody "" "" (serItems "" "" (x :: xs))).length
      rw [serArrBody, if_neg hpne, if_pos rfl, String.length_append, String.length_append]
      have h1 : ("[" : String).length = 1 := rfl
      have h2 : ("]" : String).length = 1 := rfl
      omega
  | obj kvs =>
    rw [szV]
    cases kvs with
    | nil => decide
    | cons kv kvs =>
      obtain ⟨k, v⟩ := kv
      have hJV : isJVF ((k, v) :: kvs) = true := by simpa [isJV] using h
      have hx := szF_le ((k, v) :: kvs) hJV (by simp)
      have hv : isJV v = true := by
        rw [isJVF] at hJV
        simp at hJV
        exact hJV.1.1
      have hpne : serFields "" "" ((k, v) :: kvs) ≠ [] := by
        rw [serFields_cons k v kvs hv]; simp
      show 1 + szF ((k, v) :: kvs) ≤
        (serObjBody "" "" (serFields "" "" ((k, v) :: kvs))).length
      rw [serObjBody, if_neg hpne, if_pos rfl, String.length_append, String.length_append]
      have h1 : (String.singleton lbCh).length = 1 := rfl
      have h2 : (String.singleton rbCh).length = 1 := rfl
      omega
  | undef => simp [isJV] at h
  | func => simp [isJV] at h

theorem szL_le (xs : List JSValue) (h : isJVL xs = true) (hne : xs ≠ []) :
    szL xs ≤ 1 + (joinSep "," (serItems "" "" xs)).length := by
  cases xs with
  | nil => exact absurd rfl hne
  | cons x xs =>
    have hx : isJV x = true := by rw [isJVL] at h; simp at h; exact h.1
    have hxs : isJVL xs = true := by rw [isJVL] at h; simp at h; exact h.2
    have hvx := szV_le x hx
    rw [szL, serItems_cons]
    cases xs with
    | nil =>
      show 1 + max (szV x) (szL []) ≤ 1 + (joinSep "," [serC x]).length
      rw [szL]
      simp [joinSep]
      omega
    | cons y ys =>
      have hys := szL_le (y :: ys) hxs (by simp)
      rw [show serItems "" "" (y :: ys) = serC y :: serItems "" "" ys from rfl] at hys ⊢
      rw [joinSep_comma_cons_cons_length]
      omega

theorem szF_le (kvs : List (String × JSValue)) (h : isJVF kvs = true) (hne : kvs ≠ []) :
    szF kvs ≤ 1 + (joinSep "," (serFields "" "" kvs)).length := by
  cases kvs with
  | nil => exact absurd rfl hne
  | cons kv kvs =>
    obtain ⟨k, v⟩ := kv
    have hv : isJV v = true := by rw [isJVF] at h; simp at h; exact h.1.1
    have hkvs : isJVF kvs = true := by rw [isJVF] at h; simp at h; exact h.2
    have hvv := szV_le v hv
    have hmlen : (quoteJSON k ++ ":" ++ serC v).length =
        (quoteJSON k).length + 1 + (serC v).length := by
      rw [String.length_append, String.length_append]
      rfl
    rw [szF, serFields_cons k v kvs hv]
    cases hkv : kvs with
    | nil =>
      show 1 + max (szV v) (szF []) ≤ 1 + (joinSep "," [quoteJSON k ++ ":" ++ serC v]).length
      rw [szF]
      simp [joinSep]
      omega
    | cons kv2 kvs2 =>
      obtain ⟨k2, v2⟩ := kv2
      have hkvs2 : isJVF ((k2, v2) :: kvs2) = true := by rw [← hkv]; exact hkvs
      have hv2 : isJV v2 = true := by rw [isJVF] at hkvs2; simp at hkvs2; exact hkvs2.1.1
      have hys := szF_le ((k2, v2) :: kvs2) hkvs2 (by simp)
      rw [serFields_cons k2 v2 kvs2 hv2] at hys ⊢
      rw [joinSep_comma_cons_cons_length]
      omega

end

/-! ### Shapes of serialized text -/

theorem skipWs_qCh (cs : List Char) : skipWs (qCh :: cs) = qCh :: cs :=
  skipWs_cons _ _ (by decide)

theorem skipWs_clCh (cs : List Char) : skipWs (clCh :: cs) = clCh :: cs :=
  skipWs_cons _ _ (by decide)

theorem skipWs_cmCh (cs : List Char) : skipWs (cmCh :: cs) = cmCh :: cs :=
  skipWs_cons _ _ (by decide)

theorem skipWs_rkCh (cs : List Char) : skipWs (rkCh :: cs) = rkCh :: cs :=
  skipWs_cons _ _ (by decide)

theorem skipWs_rbCh (cs : List Char) : skipWs (rbCh :: cs) = rbCh :: cs :=
  skipWs_cons _ _ (by decide)

theorem rkCh_eq_cmCh_false : (rkCh = cmCh) = False := eq_false (by decide)

theorem rbCh_eq_cmCh_false : (rbCh = cmCh) = False := eq_false (by decide)

theorem intRepr_head (n : Int) : ∃ c t, (intRepr n).data = c :: t ∧
    (48 ≤ c.toNat ∧ c.toNat ≤ 57 ∨ c.toNat = 45) := by
  by_cases hneg : n < 0
  · rw [intRepr, if_pos hneg]
    exact ⟨mnCh, natDigs (-n).toNat, rfl, Or.inr (toNat_ofNat_lt 45 (by omega))⟩
  · rw [intRepr, if_neg hneg]
    have hne : natDigs n.toNat ≠ [] := by rw [natDigs_eq]; exact natDigsCore_ne_nil _
    obtain ⟨d, ds, hmatch⟩ : ∃ d ds, natDigs n.toNat = d :: ds := by
      match hm : natDigs n.toNat with
      | [] => exact absurd hm hne
      | d :: ds => exact ⟨d, ds, rfl⟩
    have hd : isDigitCh d = true := by
      have := natDigsCore_digits n.toNat d
      rw [← natDigs_eq, hmatch] at this
      exact this (by simp)
    have hdt : 48 ≤ d.toNat ∧ d.toNat ≤ 57 := by simp [isDigitCh] at hd; omega
    exact ⟨d, ds,
      by rw [show (String.mk (natDigs n.toNat)).data = natDigs n.toNat from rfl, hmatch],
      Or.inl hdt⟩

theorem memberData (k : String) (v : JSValue) (tail : List Char) :
    (quoteJSON k ++ ":" ++ serC v).data ++ tail =
      qCh :: (escL k.data ++ qCh :: clCh :: ((serC v).data ++ tail)) := by
  rw [String.data_append, String.data_append]
  show (((qCh :: (escL k.data ++ [qCh])) ++ [clCh]) ++ (serC v).data) ++ tail = _
  simp [List.append_assoc]

theorem itemsJoin_head (x : JSValue) (xs : List JSValue) (hx : isJV x = true) :
    ∃ c tJ, (joinSep "," (serItems "" "" (x :: xs))).data = c :: tJ ∧
      isWsCh c = false ∧ c ≠ rkCh := by
  obtain ⟨c, t, hct, hws, hcrk, _⟩ := serC_head x hx
  cases xs with
  | nil =>
    exact ⟨c, t,
      by rw [show joinSep "," (serItems "" "" [x]) = serC x from rfl, hct], hws, hcrk⟩
  | cons y ys =>
    refine ⟨c, t ++ (cmCh :: (joinSep "," (serItems "" "" (y :: ys))).data), ?_, hws, hcrk⟩
    rw [serItems_cons, show serItems "" "" (y :: ys) = serC y :: serItems "" "" ys from rfl,
      joinSep_pair, String.data_append, String.data_append, hct,
      show serC y :: serItems "" "" ys = serItems "" "" (y :: ys) from rfl]
    simp [List.append_assoc]
    rfl

theorem fieldsJoin_head (k : String) (v : JSValue) (kvs : List (String × JSValue))
    (hv : isJV v = true) :
    ∃ tJ, (joinSep "," (serFields "" "" ((k, v) :: kvs))).data = qCh :: tJ := by
  rw [serFields_cons k v kvs hv]
  cases hsf : serFields "" "" kvs with
  | nil =>
    refine ⟨escL k.data ++ qCh :: clCh :: (serC v).data, ?_⟩
    show (quoteJSON k ++ ":" ++ serC v).data = _
    have := memberData k v []
    simpa using this
  | cons m2 ms =>
    refine ⟨escL k.data ++ qCh :: clCh :: ((serC v).data ++
      cmCh :: (joinSep "," (m2 :: ms)).data), ?_⟩
    rw [joinSep_pair, String.data_append, String.data_append,
      show (quoteJSON k ++ ":" ++ serC v).data =
        qCh :: (escL k.data ++ qCh :: clCh :: (serC v).data) from by
          simpa using memberData k v []]
    simp [List.append_assoc]
    rfl

/-! ### The round trip, by induction on the parser's fuel -/

theorem rt_fuel (f : Nat) :
    (∀ v rest, isJV v = true → szV v ≤ f → sepHead rest →
      pVal f ((serC v).data ++ rest) = some (v, rest)) ∧
    (∀ xs rest, isJVL xs = true → szL xs ≤ f → xs ≠ [] →
      pItems f ((joinSep "," (serItems "" "" xs)).data ++ rkCh :: rest) = some (xs, rest)) ∧
    (∀ kvs rest, isJVF kvs = true → szF kvs ≤ f → kvs ≠ [] →
      pFields f ((joinSep "," (serFields "" "" kvs)).data ++ rbCh :: rest) =
        some (kvs, rest)) := by
  induction f with
  | zero =>
    refine ⟨?_, ?_, ?_⟩
    · intro v rest h hsz hsep
      exfalso
      cases v <;> simp [szV] at hsz
    · intro xs rest h hsz hne
      exfalso
      cases xs with
      | nil => exact hne rfl
      | cons x xs => simp [szL] at hsz
    · intro kvs rest h hsz hne
      exfalso
      cases kvs with
      | nil => exact hne rfl
      | cons kv kvs =>
        obtain ⟨k, v⟩ := kv
        simp [szF] at hsz
  | succ f ih =>
    obtain ⟨ihV, ihI, ihF⟩ := ih
    refine ⟨?_, ?_, ?_⟩
    · intro v rest h hsz hsep
      cases v with
      | null => exact pVal_null f rest
      | bool b =>
        cases b
        · exact pVal_false f rest
        · exact pVal_true f rest
      | num n =>
        obtain ⟨c, t0, hdata, hc⟩ := intRepr_head n
        show pVal (f + 1) ((intRepr n).data ++ rest) = some (.num n, rest)
        rw [hdata, List.cons_append, pVal_num f c _ hc, ← List.cons_append, ← hdata,
          pNum_intRepr n rest hsep]
        rfl
      | str s =>
        show pVal (f + 1) ((quoteJSON s).data ++ rest) = some (.str s, rest)
        rw [show (quoteJSON s).data = qCh :: (escL s.data ++ [qCh]) from rfl,
          List.cons_append, pVal_str, List.append_assoc,
          show [qCh] ++ rest = qCh :: rest from rfl, pStrChars_escL]
        rfl
      | arr xs =>
        cases xs with
        | nil => exact pVal_arrE f rest
        | cons x xs =>
          have hL : isJVL (x :: xs) = true := by simpa [isJV] using h
          have hx : isJV x = true := by rw [isJVL] at hL; simp at hL; exact hL.1
          have hpne : serItems "" "" (x :: xs) ≠ [] := by rw [serItems_cons]; simp
          show pVal (f + 1)
            ((serArrBody "" "" (serItems "" "" (x :: xs))).data ++ rest) =
            some (.arr (x :: xs), rest)
          rw [serArrBody, if_neg hpne, if_pos rfl]
          have hdata : ("[" ++ joinSep "," (serItems "" "" (x :: xs)) ++ "]").data ++ rest =
              lkCh :: ((joinSep "," (serItems "" "" (x :: xs))).data ++ rkCh :: rest) := by
            rw [String.data_append, String.data_append]
            show ((([lkCh] : List Char) ++
              (joinSep "," (serItems "" "" (x :: xs))).data) ++ [rkCh]) ++ rest = _
            simp [List.append_assoc]
          rw [hdata]
          obtain ⟨cJ, tJ, hJ, hws, hcrk⟩ := itemsJoin_head x xs hx
          rw [hJ, List.cons_append, pVal_arr f cJ _ hws hcrk, ← List.cons_append, ← hJ,
            ihI (x :: xs) rest hL (by rw [szV] at hsz; omega) (by simp)]
          rfl
      | obj kvs =>
        cases kvs with
        | nil => exact pVal_objE f rest
        | cons kv kvs =>
          obtain ⟨k, v⟩ := kv
          have hF : isJVF ((k, v) :: kvs) = true := by simpa [isJV] using h
          have hv : isJV v = true := by rw [isJVF] at hF; simp at hF; exact hF.1.1
          have hpne : serFields "" "" ((k, v) :: kvs) ≠ [] := by
            rw [serFields_cons k v kvs hv]
            simp
          show pVal (f + 1)
            ((serObjBody "" "" (serFields "" "" ((k, v) :: kvs))).data ++ rest) =
            some (.obj ((k, v) :: kvs), rest)
          rw [serObjBody, if_neg hpne, if_pos rfl]
          have hdata : (String.singleton lbCh ++
              joinSep "," (serFields "" "" ((k, v) :: kvs)) ++
              String.singleton rbCh).data ++ rest =
              lbCh :: ((joinSep "," (serFields "" "" ((k, v) :: kvs))).data ++
                rbCh :: rest) := by
            rw [String.data_append, String.data_append]
            show ((([lbCh] : List Char) ++
              (joinSep "," (serFields "" "" ((k, v) :: kvs))).data) ++ [rbCh]) ++ rest = _
            simp [List.append_assoc]
          rw [hdata]
          obtain ⟨tJ, hJ⟩ := fieldsJoin_head k v kvs hv
          rw [hJ, List.cons_append, pVal_obj f qCh _ (by decide) (by decide),
            ← List.cons_append, ← hJ,
            ihF ((k, v) :: kvs) rest hF (by rw [szV] at hsz; omega) (by simp)]
          rfl
      | undef => simp [isJV] at h
      | func => simp [isJV] at h
    · intro xs rest h hsz hne
      cases xs with
      | nil => exact absurd rfl hne
      | cons x xs =>
        have hx : isJV x = true := by rw [isJVL] at h; simp at h; exact h.1
        have hxs : isJVL xs = true := by rw [isJVL] at h; simp at h; exact h.2
        rw [szL] at hsz
        cases xs with
        | nil =>
          show pItems (f + 1)
            ((joinSep "," (serItems "" "" [x])).data ++ rkCh :: rest) = some ([x], rest)
          rw [show joinSep "," (serItems "" "" [x]) = serC x from rfl, pItems_step,
            ihV x (rkCh :: rest) hx (by simp [szL] at hsz; omega) (Or.inr (Or.inl rfl))]
          simp [skipWs_rkCh, rkCh_eq_cmCh_false]
        | cons y ys =>
          have hdata : (joinSep "," (serItems "" "" (x :: y :: ys))).data ++ rkCh :: rest =
              (serC x).data ++ cmCh ::
                ((joinSep "," (serItems "" "" (y :: ys))).data ++ rkCh :: rest) := by
            rw [serItems_cons,
              show serItems "" "" (y :: ys) = serC y :: serItems "" "" ys from rfl,
              joinSep_pair,
              show serC y :: serItems "" "" ys = serItems "" "" (y :: ys) from rfl,
              String.data_append, String.data_append]
            show (((serC x).data ++ [cmCh]) ++
              (joinSep "," (serItems "" "" (y :: ys))).data) ++ rkCh :: rest = _
            simp [List.append_assoc]
          show pItems (f + 1)
            ((joinSep "," (serItems "" "" (x :: y :: ys))).data ++ rkCh :: rest) =
            some (x :: y :: ys, rest)
          have hrec := ihI (y :: ys) rest hxs (by simp [szL] at hsz ⊢; omega) (by simp)
          rw [hdata, pItems_step,
            ihV x (cmCh :: ((joinSep "," (serItems "" "" (y :: ys))).data ++ rkCh :: rest))
              hx (by omega) (Or.inl rfl)]
          simp [skipWs_cmCh, hrec]
    · intro kvs rest h hsz hne
      cases kvs with
      | nil => exact absurd rfl hne
      | cons kv kvs =>
        obtain ⟨k, v⟩ := kv
        have hv : isJV v = true := by rw [isJVF] at h; simp at h; exact h.1.1
        have hkvs : isJVF kvs = true := by rw [isJVF] at h; simp at h; exact h.2
        rw [szF] at hsz
        cases hkv : kvs with
        | nil =>
          show pFields (f + 1)
            ((joinSep "," (serFields "" "" [(k, v)])).data ++ rbCh :: rest) =
            some ([(k, v)], rest)
          rw [show (joinSep "," (serFields "" "" [(k, v)])).data =
              (quoteJSON k ++ ":" ++ serC v).data from by
                rw [serFields_cons k v [] hv]
                rfl,
            memberData k v (rbCh :: rest), pFields_step, pStrChars_escL]
          have hv' := ihV v (rbCh :: rest) hv (by omega) (Or.inr (Or.inr rfl))
          simp [skipWs_clCh, skipWs_rbCh, hv', rbCh_eq_cmCh_false]
        | cons kv2 kvs2 =>
          obtain ⟨k2, v2⟩ := kv2
          have hkvs2 : isJVF ((k2, v2) :: kvs2) = true := by rw [← hkv]; exact hkvs
          have hv2 : isJV v2 = true := by
            rw [isJVF] at hkvs2
            simp at hkvs2
            exact hkvs2.1.1
          have hdata : (joinSep ","
              (serFields "" "" ((k, v) :: (k2, v2) :: kvs2))).data ++ rbCh :: rest =
              qCh :: (escL k.data ++ qCh :: clCh :: ((serC v).data ++ cmCh ::
                ((joinSep "," (serFields "" "" ((k2, v2) :: kvs2))).data ++
                  rbCh :: rest))) := by
            rw [serFields_cons k v ((k2, v2) :: kvs2) hv,
              serFields_cons k2 v2 kvs2 hv2, joinSep_pair,
              show (quoteJSON k2 ++ ":" ++ serC v2) :: serFields "" "" kvs2 =
                serFields "" "" ((k2, v2) :: kvs2) from
                  (serFields_cons k2 v2 kvs2 hv2).symm,
              String.data_append, String.data_append]
            rw [show (quoteJSON k ++ ":" ++ serC v).data =
                qCh :: (escL k.data ++ qCh :: clCh :: (serC v).data) from by
                  simpa using memberData k v []]
            simp [List.append_assoc]
            rfl
          show pFields (f + 1)
            ((joinSep "," (serFields "" "" ((k, v) :: (k2, v2) :: kvs2))).data ++
              rbCh :: rest) = some ((k, v) :: (k2, v2) :: kvs2, rest)
          have hrec : pFields f
              ((joinSep "," (serFields "" "" ((k2, v2) :: kvs2))).data ++ rbCh :: rest) =
              some ((k2, v2) :: kvs2, rest) := by
            apply ihF ((k2, v2) :: kvs2) rest hkvs2 _ (by simp)
            rw [← hkv]
            omega
          have hv' := ihV v (cmCh ::
            ((joinSep "," (serFields "" "" ((k2, v2) :: kvs2))).data ++ rbCh :: rest))
            hv (by omega) (Or.inl rfl)
          rw [hdata, pFields_step, pStrChars_escL]
          simp [skipWs_clCh, skipWs_cmCh, hv', hrec]

/-- Round trip at the top level: a JSON-representable value serialized in
compact mode parses back to itself. -/
theorem stringify_parse (v : JSValue) (h : isJV v = true) :
    ∃ s, stringifyJS (some 0) v = some s ∧ jsonParse s = some v := by
  refine ⟨serC v, ?_, ?_⟩
  · show serProp (gapOfSpace (some 0)) "" v = some (serC v)
    rw [show gapOfSpace (some 0) = "" from rfl]
    exact serProp_some v h
  · have hsz : szV v ≤ (serC v).length + 1 := le_trans (szV_le v h) (Nat.le_succ _)
    have hp := (rt_fuel ((serC v).length + 1)).1 v [] h hsz trivial
    rw [List.append_nil] at hp
    simp [jsonParse, hp, skipWs]

theorem spanIdent_all (cs : List Char) (h : ∀ c ∈ cs, isIdentCh c = true) :
    spanIdent cs = (cs, []) := by
  induction cs with
  | nil => rfl
  | cons c cs ih =>
    rw [spanIdent, if_pos (h c (by simp)), ih (fun c hc => h c (by simp [hc]))]

theorem eParse_ident (f : Nat) (c : Char) (t : List Char)
    (hstart : isIdentStartCh c = true) :
    eParse (f + 1) (c :: t) =
      (let r := spanIdent (c :: t)
       let name := String.mk r.1
       if name = "true" then .ok (.bool true, r.2)
       else if name = "false" then .ok (.bool false, r.2)
       else if name = "null" then .ok (.null, r.2)
       else .error ("ReferenceError: " ++ name ++ " is not defined")) := by
  have hb : (65 ≤ c.toNat ∧ c.toNat ≤ 90) ∨ (97 ≤ c.toNat ∧ c.toNat ≤ 122) ∨
      c.toNat = 95 ∨ c.toNat = 36 := by
    simp [isIdentStartCh] at hstart
    omega
  have hws : isWsCh c = false := isWsCh_eq_false c (by omega)
  have h1 : c ≠ sqCh := ne_char_of_toNat_ne c 39 (by omega) (by omega)
  have h2 : c ≠ qCh := ne_char_of_toNat_ne c 34 (by omega) (by omega)
  have h3 : c ≠ lbCh := ne_char_of_toNat_ne c 123 (by omega) (by omega)
  have h4 : c ≠ lkCh := ne_char_of_toNat_ne c 91 (by omega) (by omega)
  have h5 : isDigitCh c = false := by simp [isDigitCh]; omega
  have h6 : c ≠ mnCh := ne_char_of_toNat_ne c 45 (by omega) (by omega)
  rw [eParse.eq_def]
  simp [skipWs_cons c t hws, h1, h2, h3, h4, h5, h6, hstart]

theorem bareIdent_eval (s : String) (h : isBareIdentifier s = true) :
    evaluate s = .failure ("ReferenceError: " ++ s ++ " is not defined") := by
  match hd : s.data with
  | [] =>
    rw [isBareIdentifier, hd] at h
    simp at h
  | c :: cs =>
    rw [isBareIdentifier, hd] at h
    simp at h
    obtain ⟨⟨⟨⟨hstart, hall⟩, hnt⟩, hnf⟩, hnn⟩ := h
    have hallid : ∀ x ∈ c :: cs, isIdentCh x = true := by
      intro x hx
      rcases List.mem_cons.mp hx with hx | hx
      · subst hx
        simp [isIdentCh, hstart]
      · exact hall x hx
    have hmk : String.mk s.data = s := rfl
    rw [evaluate]
    rw [show s.length + 1 = s.data.length + 1 from rfl, hd]
    rw [eParse_ident ((c :: cs).length) c cs hstart, spanIdent_all (c :: cs) hallid]
    simp only [← hd, hmk]
    rw [if_neg (by simpa using hnt), if_neg (by simpa using hnf),
      if_neg (by simpa using hnn)]

theorem refMsg_not_accepted (s : String) :
    acceptList.contains ("ReferenceError: " ++ s ++ " is not defined") = false := by
  have hmsg : ("ReferenceError: " ++ s ++ " is not defined").data =
      Char.ofNat 82 :: (("eferenceError: " ++ s ++ " is not defined").data) := by
    rw [String.data_append, String.data_append, String.data_append, String.data_append]
    rfl
  have hne : ∀ t : String, t.data.head? = some sqCh →
      ("ReferenceError: " ++ s ++ " is not defined") ≠ t := by
    intro t ht he
    rw [← he, hmsg] at ht
    simp at ht
    exact absurd ht (by decide)
  have h1 := hne (inspectStr "object") rfl
  have h2 := hne (inspectStr "string") rfl
  have h3 := hne (inspectStr "number") rfl
  simp [acceptList, List.contains, h1, h2, h3]

theorem refMsg_not_mem (s : String) :
    ("ReferenceError: " ++ s ++ " is not defined") ∉ acceptList := by
  intro hmem
  have h2 := List.elem_eq_true_of_mem hmem
  have h3 : List.elem ("ReferenceError: " ++ s ++ " is not defined") acceptList = false :=
    refMsg_not_accepted s
  rw [h3] at h2
  exact Bool.false_ne_true h2

theorem bareIdent_classify (s : String) (h : isBareIdentifier s = true) :
    classify (runSandbox s) = .error ("input evaluated to " ++
      ("ReferenceError: " ++ s ++ " is not defined") ++ ", which is no good.") := by
  rw [runSandbox, bareIdent_eval s h, classify,
    if_neg (by simpa using refMsg_not_mem s)]

/-- Re-merging an already merged record assigns nothing: every default
key is present after the first merge. -/
theorem defaultsFn_idem (r : RawOpts) : defaultsFn (defaultsFn r) = defaultsFn r := by
  obtain ⟨d, i, nc, ln, o⟩ := r
  cases d <;> cases i <;> cases nc <;> cases ln <;> rfl

/-! ## The claims -/

/-- C1 (code bug evidence).  The public convenience entry point j2j, as
coded, sends a STRING input straight to `output` — `JSON.stringify` of
the source text itself, never evaluated — and sends a NON-string input to
`parse`.  On the documented example `j2j("{foo: 'bar', baz: 2}",
{indent: false})` the promise therefore fulfills with the JSON-quoted
source text, which differs from the documented output
`{"foo":"bar","baz":2}`; and a non-string (object) input makes the
evaluator run once instead of being serialized directly.  This is the
reverse of the claim, of the function's own doc comment
("If for some reason you pass it a non-string, it will just give you
output, which is a shortcut for JSON.stringify()") and of its doc
example: the `typeof input === 'string'` condition on line 270 is
inverted. -/
theorem c1_string_shortcut_inverted :
    j2j (.str "\x7bfoo: \x27bar\x27, baz: 2\x7d")
        (.record ⟨none, some (.bool false), none, none, none⟩)
        ⟨false, fun _ => none⟩ =
      some ⟨.ok (some "\"\x7bfoo: \x27bar\x27, baz: 2\x7d\""), 0, []⟩ ∧
    (some "\"\x7bfoo: \x27bar\x27, baz: 2\x7d\"" : Option String) ≠
      some "\x7b\"foo\":\"bar\",\"baz\":2\x7d" ∧
    Option.map (fun r => r.evalCalls)
      (j2j (.obj [("foo", .str "bar")])
        (.record ⟨none, some (.bool false), none, none, none⟩)
        ⟨false, fun _ => none⟩) = some 1 :=
  ⟨rfl, by decide, rfl⟩

/-- C2.  The classifier accepts a value exactly when its runtime type tag
is one of object, string or number, resolving with the captured value;
every other tag is rejected with the message of src/index.js line 84,
which embeds the (inspected) offending tag: `input evaluated to '<tag>',
which is no good.`. -/
theorem c2_classifier_accept_set (v : JSValue) :
    classify (valueInfo v) =
      if typeofTag v ∈ (["object", "string", "number"] : List String) then .ok v
      else .error ("input evaluated to " ++
        ("\x27" ++ typeofTag v ++ "\x27") ++ ", which is no good.") := by
  cases v <;> rfl

/-- C3 counterexample.  The options merge is NOT pure: merging the empty
record over the defaults mutates the caller-supplied record — the npm
defaults package assigns each missing key onto the passed object and
returns that same object, so after the call the caller's record has
become the merged record. -/
theorem c3_merge_mutates_caller :
    (options (.record ⟨none, none, none, none, none⟩)).2 ≠
      .record ⟨none, none, none, none, none⟩ := by
  decide

/-- C3 amended.  The merge fills the missing fields with defaults by
assigning them onto the caller-supplied record itself: after the call the
caller's record is exactly the merged record (first conjunct).  The
resulting fully-merged Options record is not mutated by any later
pipeline stage: re-merging it — which is what `parse` and `output` do on
the record handed to them — assigns nothing and returns it unchanged
(second conjunct). -/
theorem c3_merge_in_place_and_stable (r : RawOpts) :
    (options (.record r)).2 = .record ((options (.record r)).1) ∧
    options (.record ((options (.record r)).1)) =
      ((options (.record r)).1, .record ((options (.record r)).1)) := by
  refine ⟨rfl, ?_⟩
  obtain ⟨d, i, nc, ln, o⟩ := r
  cases d <;> cases i <;> cases nc <;> cases ln <;> rfl

/-- C4.  On empty string input the entry point fails immediately with the
empty-input error (`EmptyInputError` of the spec's taxonomy, message
`input parameter cannot be empty`), and the evaluator is never invoked:
zero sandbox runs happen for that call. -/
theorem c4_empty_input_fails_fast (a : OptsArg) (env : Env) :
    j2j (.str "") a env = some ⟨.error "input parameter cannot be empty", 0, []⟩ := rfl

/-- C5.  An explicitly supplied falsy option survives the merge:
`options({indent: false})` keeps `indent = false` while the unspecified
fields take the defaults (`debug = false`, `no-color = true`,
`line-nos = false`); serializing under that record is identical to
serializing with `indent = 0` for every value — `parseInt(false, 10)` is
`NaN`, which `JSON.stringify` treats as zero spaces — and on the
documented example it produces exactly the compact text, which contains
no whitespace at all. -/
theorem c5_falsy_override_compact :
    (options (.record ⟨none, some (.bool false), none, none, none⟩)).1.indent =
      some (.bool false) ∧
    (options (.record ⟨none, some (.bool false), none, none, none⟩)).1.debug =
      some (.bool false) ∧
    (options (.record ⟨none, some (.bool false), none, none, none⟩)).1.nocolor =
      some (.bool true) ∧
    (options (.record ⟨none, some (.bool false), none, none, none⟩)).1.linenos =
      some (.bool false) ∧
    (∀ v : JSValue,
      stringifyJS (jsParseInt
        ((options (.record ⟨none, some (.bool false), none, none, none⟩)).1.indent)) v =
      stringifyJS (some 0) v) ∧
    (output (.obj [("foo", .str "bar"), ("baz", .num 2)])
        (.record ⟨none, some (.bool false), none, none, none⟩)
        ⟨false, fun _ => none⟩).text = some "\x7b\"foo\":\"bar\",\"baz\":2\x7d" ∧
    ("\x7b\"foo\":\"bar\",\"baz\":2\x7d" : String).data.all (fun c => !(isWsCh c)) = true :=
  ⟨rfl, rfl, rfl, rfl, fun _ => rfl, rfl, by decide⟩

/-- C6.  Evaluating the source `{foo: 'bar', baz: 2}` through the
pipeline (evaluate, then classify — `parse` — accepting the object) and
serializing the result with `indent = 0` yields exactly
`{"foo":"bar","baz":2}`. -/
theorem c6_documented_example :
    (∀ a : OptsArg, parse "\x7bfoo: \x27bar\x27, baz: 2\x7d" a =
      some (.ok (.obj [("foo", .str "bar"), ("baz", .num 2)]))) ∧
    stringifyJS (some 0) (.obj [("foo", .str "bar"), ("baz", .num 2)]) =
      some "\x7b\"foo\":\"bar\",\"baz\":2\x7d" ∧
    (output (.obj [("foo", .str "bar"), ("baz", .num 2)])
        (.record ⟨none, some (.num 0), none, none, none⟩)
        ⟨false, fun _ => none⟩).text = some "\x7b\"foo\":\"bar\",\"baz\":2\x7d" :=
  ⟨fun _ => rfl, rfl, rfl⟩

/-- C7.  Compact round trip: every JSON-representable value — no
`undefined`, no functions, no repeated keys, as a JavaScript object graph
is — serialized with `indent = 0` is a defined string, and parsing that
string back with a standard JSON parser reproduces the value exactly. -/
theorem c7_compact_roundtrip (v : JSValue) (h : isJV v = true) :
    ∃ s, stringifyJS (some 0) v = some s ∧ jsonParse s = some v :=
  stringify_parse v h

/-- C7 witness: the round trip applied to a concrete nested value. -/
theorem c7_compact_roundtrip_witness :
    isJV (.obj [("a", .num 1), ("b", .arr [.null, .str "x", .bool true])]) = true ∧
    ∃ s, stringifyJS (some 0)
        (.obj [("a", .num 1), ("b", .arr [.null, .str "x", .bool true])]) = some s ∧
      jsonParse s =
        some (.obj [("a", .num 1), ("b", .arr [.null, .str "x", .bool true])]) :=
  ⟨by decide, c7_compact_roundtrip _ (by decide)⟩

/-- C8.  An input that is a bare identifier fails in evaluation with an
execution failure — the reference error of an undefined variable against
the empty environment — and the `parse` promise for such input is
rejected under every configuration with debug off, the default (the
classifier sees the error text, not an accepted tag); with debug truthy
the rejection path crashes in the callback before settling (`none`). -/
theorem c8_bare_identifier_fails (s : String) (h : isBareIdentifier s = true) :
    evaluate s = .failure ("ReferenceError: " ++ s ++ " is not defined") ∧
    ∀ a : OptsArg, parse s a =
      if truthy (options a).1.debug then none
      else some (.error ("input evaluated to " ++
        ("ReferenceError: " ++ s ++ " is not defined") ++ ", which is no good.")) := by
  refine ⟨bareIdent_eval s h, fun a => ?_⟩
  show callbackRun (truthy (options a).1.debug) (runSandbox s) = _
  rw [callbackRun, bareIdent_classify s h]

/-- C8 witness: the caveat's own example `foo`, with the rejection read
off at the default (debug off) options. -/
theorem c8_bare_identifier_fails_witness :
    isBareIdentifier "foo" = true ∧
    evaluate "foo" = .failure ("ReferenceError: " ++ "foo" ++ " is not defined") ∧
    parse "foo" (.record ⟨none, none, none, none, none⟩) =
      some (.error ("input evaluated to " ++
        ("ReferenceError: " ++ "foo" ++ " is not defined") ++ ", which is no good.")) :=
  ⟨by decide, (c8_bare_identifier_fails "foo" (by decide)).1,
    ((c8_bare_identifier_fails "foo" (by decide)).2
      (.record ⟨none, none, none, none, none⟩)).trans rfl⟩

/-- C9 counterexample.  On the failing input `foo` (with the default
options, debug off) the wrapped failure `write` surfaces carries the
code's literal message `cannot coerce input into anything
JSON.stringify() can handle`, which differs from the claimed `cannot
coerce input into anything usable`. -/
theorem c9_wrapped_message_differs :
    write "foo" (.record ⟨none, none, none, none, none⟩) ⟨false, fun _ => none⟩ =
      some ⟨.error "cannot coerce input into anything JSON.stringify() can handle",
        [], []⟩ ∧
    "cannot coerce input into anything JSON.stringify() can handle" ≠
      "cannot coerce input into anything usable" :=
  ⟨rfl, by decide⟩

/-- C9 amended.  For every pipeline error (a classifier rejection;
decoration failures are caught inside `output` and only warn): with
debug off — the default — `write` surfaces it as a single wrapped
failure whose message is the constant `cannot coerce input into anything
JSON.stringify() can handle`, hiding the internal cause, and logs
nothing; with debug truthy the sandbox callback crashes on the rejection
path before settling (the parameter `info` shadows the chalk helper, so
line 83 throws a TypeError before line 84's reject), so no wrapped
failure surfaces.  Consequently the detailed cause is never logged in
any configuration that settles: line 158's debug-only logging is
unreachable. -/
theorem c9_wrapped_failure (input : String) (a : OptsArg) (env : Env) (e : String)
    (h : classify (runSandbox input) = .error e) :
    write input a env =
      (if truthy (options a).1.debug then none
       else some ⟨.error "cannot coerce input into anything JSON.stringify() can handle",
         [], []⟩) ∧
    ∀ r : WriteRes, write input a env = some r → r.debugLog = [] := by
  have hidem : (options (.record ((options a).1))).1 = (options a).1 := by
    cases a with
    | undef => exact defaultsFn_idem _
    | func => exact defaultsFn_idem _
    | record r => exact defaultsFn_idem r
  have hw : write input a env =
      (if truthy (options a).1.debug then none
       else some ⟨.error "cannot coerce input into anything JSON.stringify() can handle",
         [], []⟩) := by
    show (match parse input (.record ((options a).1)) with
      | none => none
      | some (.ok v) =>
        let r := output v (.record ((options a).1)) env
        some (⟨.ok r.text, [], r.warnings⟩ : WriteRes)
      | some (.error e2) =>
        some ⟨.error "cannot coerce input into anything JSON.stringify() can handle",
          if truthy ((options a).1).debug then [e2] else [], []⟩) = _
    rw [parse, callbackRun, hidem, h]
    cases hdb : truthy (options a).1.debug
    · simp [hdb]
    · simp [hdb]
  refine ⟨hw, fun r hr => ?_⟩
  rw [hw] at hr
  cases hdb : truthy (options a).1.debug
  · rw [hdb] at hr
    simp at hr
    rw [← hr]
  · rw [hdb] at hr
    simp at hr

/-- C9 witness: the classifier rejection on `foo`, surfaced as the
wrapped failure with an empty log at the default options (debug off),
and never settling at all with debug on. -/
theorem c9_wrapped_failure_witness :
    classify (runSandbox "foo") = .error ("input evaluated to " ++
      ("ReferenceError: " ++ "foo" ++ " is not defined") ++ ", which is no good.") ∧
    write "foo" (.record ⟨none, none, none, none, none⟩) ⟨false, fun _ => none⟩ =
      some ⟨.error "cannot coerce input into anything JSON.stringify() can handle",
        [], []⟩ ∧
    write "foo" (.record ⟨some (.bool true), none, none, none, none⟩)
      ⟨false, fun _ => none⟩ = none :=
  ⟨rfl,
   ((c9_wrapped_failure "foo" (.record ⟨none, none, none, none, none⟩)
      ⟨false, fun _ => none⟩ _ rfl).1).trans rfl,
   ((c9_wrapped_failure "foo" (.record ⟨some (.bool true), none, none, none, none⟩)
      ⟨false, fun _ => none⟩ _ rfl).1).trans rfl⟩

/-- C10.  `parse` builds its harness by embedding the source twice — once
as the `console.log` capture's argument (after `console.log((`) and once
inside the `typeof` probe (after `return typeof function() { return (`) —
so the harness text contains two copies of `s` (its length is twice the
source's plus the 77 characters of the fixed scaffolding), and the
isolate evaluates `s` twice per invocation: the captured value comes from
the first evaluation, the captured type tag from the second, independent
one, and the side effects of both runs accumulate — any effect of one run
of `s` happens twice. -/
theorem c10_source_embedded_twice (s : String) (ev : Nat → JSValue × List String) :
    buildFn s = harnessPre ++ s ++ harnessMid ++ s ++ harnessPost ∧
    (buildFn s).length = 2 * s.length + 77 ∧
    (harnessSem ev).logged = (ev 0).1 ∧
    (harnessSem ev).tag = typeofTag (ev 1).1 ∧
    (harnessSem ev).effects = (ev 0).2 ++ (ev 1).2 ∧
    ∀ v t, (harnessSem fun _ => (v, t)).effects = t ++ t := by
  refine ⟨rfl, ?_, rfl, rfl, rfl, fun _ _ => rfl⟩
  rw [buildFn, String.length_append, String.length_append, String.length_append,
    String.length_append]
  have h1 : harnessPre.length = 27 := rfl
  have h2 : harnessMid.length = 39 := rfl
  have h3 : harnessPost.length = 11 := rfl
  omega

end J2J
